import Mathlib

/-!
Verification of the response-shaping pipeline of the quiverMCP server
(`src/response-formatter.ts`): `formatResponse`, `selectFields`,
`applyPagination`, `formatOutput`, `formatAsJSON`, `createSummary`,
`formatAsTable`, `formatAsCSV` and `selectTickerDataSections`.

The embedding models JavaScript runtime values as the inductive type
`JSValue` (numbers restricted to integers, which is the numeric domain the
pipeline is exercised on), JavaScript truthiness as `truthy`, property
access and `Array.prototype.slice` with their JavaScript semantics, and
`JSON.stringify` / `JSON.parse` as an executable printer/parser pair.
Objects are association lists of own enumerable properties in insertion
order; prototype-chain lookups are outside the modelled domain.
-/

namespace QuiverSpec

/-- JavaScript runtime values, restricted to the JSON-like fragment the
pipeline operates on.  `undefined` is the JavaScript `undefined` value. -/
inductive JSValue where
  | null
  | undefined
  | bool (b : Bool)
  | num (n : ℤ)
  | str (s : String)
  | arr (xs : List JSValue)
  | obj (kvs : List (String × JSValue))

/-- JavaScript truthiness of a value (`if (v)`).  Arrays and objects are
always truthy; `0`, `""`, `null`, `undefined` and `false` are falsy. -/
def truthy : JSValue → Bool
  | .null => false
  | .undefined => false
  | .bool b => b
  | .num n => n != 0
  | .str s => s != ""
  | .arr _ => true
  | .obj _ => true

/-- Truthiness of an optional string field (`if (response.error)`):
an absent field and the empty string are both falsy. -/
def optStrTruthy : Option String → Bool
  | some s => s != ""
  | none => false

/-- Truthiness of an optional numeric option (`options.page`, etc.). -/
def numOptTruthy : Option ℤ → Bool
  | some n => n != 0
  | none => false

/-- JavaScript `x || d` for a numeric option `x`: the default applies when
`x` is absent or zero (both falsy). -/
def jsNumOr (o : Option ℤ) (d : ℤ) : ℤ :=
  match o with
  | some n => if n = 0 then d else n
  | none => d

/-- Lookup of an own property in an object's association list. -/
def lookupKey : List (String × JSValue) → String → Option JSValue
  | [], _ => none
  | (k', v') :: rest, k => if k' = k then some v' else lookupKey rest k

/-- JavaScript property assignment `o[k] = v` on an association list:
an existing key keeps its position and gets the new value, a new key is
appended at the end (object key insertion order). -/
def setKey : List (String × JSValue) → String → JSValue → List (String × JSValue)
  | [], k, v => [(k, v)]
  | (k', v') :: rest, k, v =>
      if k' = k then (k', v) :: rest else (k', v') :: setKey rest k v

/-- Is the string the canonical decimal representation of an array index
`i` (JavaScript array index property keys are canonical)? -/
def isCanonicalIndex (f : String) (len : ℕ) : Option ℕ :=
  match f.toNat? with
  | some i => if toString i = f ∧ i < len then some i else none
  | none => none

/-- JavaScript property read `v[f]`, yielding `undefined` for a missing
property.  On arrays and strings, `length` and canonical index keys are
the own properties.  Prototype-chain properties are outside the model. -/
def jsGet (v : JSValue) (f : String) : JSValue :=
  match v with
  | .obj kvs => (lookupKey kvs f).getD .undefined
  | .arr xs =>
      if f = "length" then .num xs.length
      else
        match isCanonicalIndex f xs.length with
        | some i => xs.getD i .undefined
        | none => .undefined
  | .str s =>
      if f = "length" then .num s.length
      else
        match isCanonicalIndex f s.length with
        | some i => .str (String.singleton (s.data.getD i ' '))
        | none => .undefined
  | _ => .undefined

/-- JavaScript `f in v` for the object-typed values the pipeline applies
it to (own-property membership; prototype-chain hits are outside the
modelled domain). -/
def jsHas (v : JSValue) (f : String) : Bool :=
  match v with
  | .obj kvs => (lookupKey kvs f).isSome
  | .arr xs => f = "length" || (isCanonicalIndex f xs.length).isSome
  | _ => false

/-- Index resolution of `Array.prototype.slice`: a negative index counts
from the end, and the result is clamped into `[0, len]`. -/
def jsSliceIndex (i : ℤ) (len : ℕ) : ℤ :=
  if i < 0 then max ((len : ℤ) + i) 0 else min i (len : ℤ)

/-- JavaScript `Array.prototype.slice(start, stop)` with its
negative-index and clamping semantics, for integer arguments. -/
def jsSlice (xs : List JSValue) (start stop : ℤ) : List JSValue :=
  (xs.drop (jsSliceIndex start xs.length).toNat).take
    (jsSliceIndex stop xs.length - jsSliceIndex start xs.length).toNat

/-- JavaScript `Array.isArray`. -/
def isArray : JSValue → Bool
  | .arr _ => true
  | _ => false

/-- Is the value of JavaScript `typeof` equal to `'object'`
(objects, arrays and `null`)? -/
def jsTypeofObject : JSValue → Bool
  | .obj _ => true
  | .arr _ => true
  | .null => true
  | _ => false

/-- Is the value an object or an array and not `null`
(the `typeof item === 'object' && item !== null` shape of test)? -/
def isObjectRef : JSValue → Bool
  | .obj _ => true
  | .arr _ => true
  | _ => false

/-- JavaScript `Object.keys` (own enumerable property keys in order). -/
def objectKeys : JSValue → List String
  | .obj kvs => kvs.map (fun p => p.1)
  | .arr xs => (List.range xs.length).map (fun i => toString i)
  | .str s => (List.range s.length).map (fun i => toString i)
  | _ => []

/-- Decimal digit characters of a natural number, most significant first.
The first argument is structural-recursion fuel; any `fuel > n` computes
the digits. -/
def natDigitsAux : ℕ → ℕ → List Char
  | 0, _ => []
  | fuel + 1, n =>
      if n < 10 then [Char.ofNat (48 + n)]
      else natDigitsAux fuel (n / 10) ++ [Char.ofNat (48 + n % 10)]

/-- Decimal string of a natural number. -/
def natStr (n : ℕ) : String := String.mk (natDigitsAux (n + 1) n)

/-- Decimal string of an integer, as JavaScript `String(n)` renders an
integral number. -/
def intStr (n : ℤ) : String :=
  if n < 0 then "-" ++ natStr n.natAbs else natStr n.toNat

mutual

/-- JavaScript `String(v)` coercion: arrays join their elements with
commas (`null`/`undefined` elements become empty), plain objects render
as `[object Object]`. -/
def jsToString : JSValue → String
  | .null => "null"
  | .undefined => "undefined"
  | .bool b => cond b "true" "false"
  | .num n => intStr n
  | .str s => s
  | .arr xs => String.intercalate "," (jsArrParts xs)
  | .obj _ => "[object Object]"

/-- Element strings of `Array.prototype.join(',')`:
`null` and `undefined` elements render as the empty string. -/
def jsArrParts : List JSValue → List String
  | [] => []
  | v :: tl =>
      (match v with
       | .null => ""
       | .undefined => ""
       | _ => jsToString v) :: jsArrParts tl

end

/-- Comma-joined concatenation of serialized parts
(`Array.prototype.join(',')` on the serialized fragments). -/
def joinComma : List String → String
  | [] => ""
  | [s] => s
  | s :: tl => s ++ ("," ++ joinComma tl)

/-- Hexadecimal digit character (lowercase), as emitted by
`JSON.stringify` in `\u00XX` escapes. -/
def hexDigitChar (n : ℕ) : Char :=
  if n < 10 then Char.ofNat (48 + n) else Char.ofNat (87 + n)

/-- JSON escape of a single character, as `JSON.stringify` emits it:
two-character escapes for quote, backslash and the common control
characters, `\u00XX` for the remaining control characters. -/
def jsonEscapeChar (c : Char) : List Char :=
  if c = '"' then ['\\', '"']
  else if c = '\\' then ['\\', '\\']
  else if c = '\n' then ['\\', 'n']
  else if c = '\t' then ['\\', 't']
  else if c = '\r' then ['\\', 'r']
  else if c = Char.ofNat 8 then ['\\', 'b']
  else if c = Char.ofNat 12 then ['\\', 'f']
  else if c.toNat < 32 then
    ['\\', 'u', '0', '0', hexDigitChar (c.toNat / 16), hexDigitChar (c.toNat % 16)]
  else [c]

/-- JSON escape of a character list. -/
def jsonEscapeList : List Char → List Char
  | [] => []
  | c :: tl => jsonEscapeChar c ++ jsonEscapeList tl

/-- JSON string literal for a string (`JSON.stringify` of a string). -/
def jsonQuote (s : String) : String :=
  String.mk ('"' :: (jsonEscapeList s.data ++ ['"']))

mutual

/-- Model of `JSON.stringify`.  Returns `none` exactly where
`JSON.stringify` returns the `undefined` value (a top-level `undefined`);
`undefined` array elements serialize as `null` and `undefined` object
member values are skipped. -/
def jsonStringify : JSValue → Option String
  | .undefined => none
  | .null => some "null"
  | .bool b => some (cond b "true" "false")
  | .num n => some (intStr n)
  | .str s => some (jsonQuote s)
  | .arr xs => some ("[" ++ joinComma (jsonElems xs) ++ "]")
  | .obj kvs => some ("\x7b" ++ joinComma (jsonMembers kvs) ++ "\x7d")

/-- Serialized array elements (`undefined` renders as `null`). -/
def jsonElems : List JSValue → List String
  | [] => []
  | v :: tl => ((jsonStringify v).getD "null") :: jsonElems tl

/-- Serialized object members (members with `undefined` values are
skipped, as `JSON.stringify` does). -/
def jsonMembers : List (String × JSValue) → List String
  | [] => []
  | (k, v) :: tl =>
      match jsonStringify v with
      | some sv => (jsonQuote k ++ ":" ++ sv) :: jsonMembers tl
      | none => jsonMembers tl

end

/-- Response modes of the shaper (`ResponseMode` in the source). -/
inductive ResponseMode where
  | compact
  | summary
  | detailed
deriving DecidableEq, Repr

/-- Output formats of the shaper (`OutputFormat` in the source). -/
inductive OutputFormat where
  | json
  | table
  | csv
deriving DecidableEq, Repr

/-- Shaping options (`ResponseOptions` in the source).  All fields are
optional; numbers are modelled as integers. -/
structure ResponseOptions where
  mode : Option ResponseMode := none
  format : Option OutputFormat := none
  fields : Option (List String) := none
  explicitFields : Option Bool := none
  page : Option ℤ := none
  page_size : Option ℤ := none
  limit : Option ℤ := none

/-- Pagination metadata block (`PaginationInfo` in the source). -/
structure PaginationInfo where
  current_page : ℤ
  page_size : ℤ
  total_items : ℤ
  total_pages : ℤ
  has_next : Bool
  has_previous : Bool
deriving DecidableEq, Repr

/-- The `summary` block attached to successful transforms. -/
structure SummaryInfo where
  total_items : ℤ
  fields_included : List String
  mode : ResponseMode
  format : OutputFormat
deriving DecidableEq, Repr

/-- Shaped envelope returned by `formatResponse`
(`OptimizedResponse` in the source). -/
structure OptimizedResponse where
  data : JSValue
  pagination : Option PaginationInfo := none
  summary : Option SummaryInfo := none

/-- Upstream result-or-error envelope (`QuiverAPIResponse` in the
source): `data` is `undefined` when absent, `error` is an optional
string, `status` mirrors the upstream HTTP status. -/
structure QuiverAPIResponse where
  data : JSValue := .undefined
  error : Option String := none
  status : ℤ

/-- The error value placed in the short-circuit payload
(`{ error: response.error, status: response.status }`). -/
def optToVal : Option String → JSValue
  | some s => .str s
  | none => .undefined

/-- Per-item field projection (the `data.map` body of `selectFields`):
non-object items pass through; from an object, each requested field that
exists is copied in request order; if none exists the original item is
returned unchanged. -/
def selectItem (fields : List String) (item : JSValue) : JSValue :=
  if isObjectRef item then
    let selected := fields.foldl
      (fun acc f => if jsHas item f then setKey acc f (jsGet item f) else acc) []
    if selected.isEmpty then item else .obj selected
  else item

/-- Model of `selectFields`: selects specific fields from an array of
objects.  The source's `!Array.isArray(data) || !fields` guard is
vacuous here because both arguments are typed arrays at every call
site. -/
def selectFields (data : List JSValue) (fields : List String) : List JSValue :=
  if fields.isEmpty then data
  else data.map (selectItem fields)

/-- Executable integer form of `Math.ceil(a / b)` for `b ≠ 0`:
`jsCeilDiv_eq_ceil` below proves it equal to the rational ceiling.
(`applyPagination` only divides by its effective `page_size`, which the
`|| 50` default makes nonzero, so `Math.ceil` of a JavaScript division
is exactly this.) -/
def jsCeilDiv (a b : ℤ) : ℤ :=
  if 0 ≤ b then -((-a) / b) else -(a / (-b))

/-- The limiting stage of `applyPagination`
(`if (limit && limit > 0) limitedData = data.slice(0, limit)`):
truncation happens only for a truthy positive `limit`. -/
def limitStage (xs : List JSValue) (limit : Option ℤ) : List JSValue :=
  match limit with
  | some n => if n != 0 && n > 0 then jsSlice xs 0 n else xs
  | none => xs

/-- Result record of `applyPagination`. -/
structure PaginationResult where
  data : JSValue
  pagination : PaginationInfo

/-- Model of `applyPagination`.  Note that the effective
`page`/`page_size` come from JavaScript `||` defaults, so the effective
`page_size` is never `0` (a zero option is coerced to the default 50);
hence `Math.ceil(total_items / page_size)` is exactly the rational
ceiling used here and never the `Infinity`/`NaN` of a division by
zero. -/
def applyPagination (data : JSValue) (options : ResponseOptions) : PaginationResult :=
  match data with
  | .arr xs =>
      let limit := options.limit
      let page := jsNumOr options.page 1
      let page_size := jsNumOr options.page_size 50
      let limitedData := limitStage xs limit
      let total_items : ℤ := limitedData.length
      let total_pages : ℤ := jsCeilDiv total_items page_size
      let start_index := (page - 1) * page_size
      let end_index := start_index + page_size
      let paginatedData := jsSlice limitedData start_index end_index
      { data := .arr paginatedData,
        pagination :=
          { current_page := page
            page_size := page_size
            total_items := total_items
            total_pages := total_pages
            has_next := page < total_pages
            has_previous := page > 1 } }
  | _ =>
      { data := data,
        pagination :=
          { current_page := 1, page_size := 1, total_items := 1,
            total_pages := 1, has_next := false, has_previous := false } }

/-- Model of `createSummary`. -/
def createSummary (data : JSValue) : JSValue :=
  match data with
  | .arr [] =>
      .obj [("type", .str "array"), ("count", .num 0),
            ("sample", .arr []), ("fields", .arr [])]
  | .arr xs =>
      let firstValidObject := xs.find? (fun item => truthy item && jsTypeofObject item)
      .obj [("type", .str "array"),
            ("count", .num xs.length),
            ("sample", .arr (xs.take (min 5 xs.length))),
            ("fields", .arr ((match firstValidObject with
              | some o => objectKeys o
              | none => []).map (fun k => .str k)))]
  | v => .obj [("type", .str "object"), ("preview", v)]

/-- One cell of the Markdown table: `String(item[header] || '')`. -/
def tableCell (item : JSValue) (header : String) : String :=
  jsToString (if truthy (jsGet item header) then jsGet item header else .str "")

/-- Model of `formatAsTable` (Markdown pipe-table). -/
def formatAsTable (data : JSValue) : String :=
  match data with
  | .arr [] => "No data available"
  | .arr (firstItem :: rest) =>
      if isObjectRef firstItem then
        let headers := objectKeys firstItem
        let headerRow := "| " ++ String.intercalate " | " headers ++ " |"
        let separatorRow :=
          "| " ++ String.intercalate " | " (headers.map (fun _ => "---")) ++ " |"
        let dataRows := (firstItem :: rest).map (fun item =>
          "| " ++ String.intercalate " | " (headers.map (tableCell item)) ++ " |")
        String.intercalate "\n" (headerRow :: separatorRow :: dataRows)
      else
        String.intercalate "\n"
          ((firstItem :: rest).map (fun item => "| " ++ jsToString item ++ " |"))
  | _ => "No data available"

/-- Does the string contain the character (`String.prototype.includes`
for a single-character needle)? -/
def strContainsChar (s : String) (c : Char) : Bool := s.data.contains c

/-- The global regex replace `value.replace(/"/g, '""')`: every quote is
doubled. -/
def escapeQuotes : List Char → List Char
  | [] => []
  | c :: tl =>
      if c = '"' then '"' :: '"' :: escapeQuotes tl else c :: escapeQuotes tl

/-- One CSV cell: `item[header] || ''`, stringified, with values
containing a comma or quote wrapped in quotes and inner quotes
doubled. -/
def csvCell (item : JSValue) (header : String) : String :=
  let value := if truthy (jsGet item header) then jsGet item header else .str ""
  let s := jsToString value
  if strContainsChar s ',' || strContainsChar s '"'
  then "\"" ++ String.mk (escapeQuotes s.data) ++ "\""
  else s

/-- Model of `formatAsCSV`. -/
def formatAsCSV (data : JSValue) : String :=
  match data with
  | .arr [] => "No data available"
  | .arr (firstItem :: rest) =>
      if isObjectRef firstItem then
        let headers := objectKeys firstItem
        let headerRow := String.intercalate "," headers
        let dataRows := (firstItem :: rest).map (fun item =>
          String.intercalate "," (headers.map (csvCell item)))
        String.intercalate "\n" (headerRow :: dataRows)
      else
        String.intercalate "," (jsArrParts (firstItem :: rest))
  | _ => "No data available"

/-- Model of `formatAsJSON`: `compact` serializes the data to a JSON
string (the `data` field becomes a string), `summary` replaces it with
`createSummary`, `detailed` passes it through. -/
def formatAsJSON (data : JSValue) (mode : ResponseMode) : JSValue :=
  match mode with
  | .compact =>
      match jsonStringify data with
      | some s => .str s
      | none => .undefined
  | .summary => createSummary data
  | .detailed => data

/-- Model of `formatOutput`: the `switch` on `format`.  The `mode`
argument is consulted only in the `json` (default) branch. -/
def formatOutput (data : JSValue) (format : OutputFormat) (mode : ResponseMode) : JSValue :=
  match format with
  | .table => .str (formatAsTable data)
  | .csv => .str (formatAsCSV data)
  | .json => formatAsJSON data mode

/-- The field-selection stage of `formatResponse`
(`if (options.fields && Array.isArray(processedData) && options.explicitFields)`).
A `fields` array is truthy whenever present (even empty); the
`explicitFields` flag is truthy only when it is `true`. -/
def projectionStage (d : JSValue) (options : ResponseOptions) : JSValue :=
  match d, options.fields with
  | .arr xs, some fs =>
      if options.explicitFields = some true then .arr (selectFields xs fs) else d
  | _, _ => d

/-- The `total_items` of the output `summary` block:
`Array.isArray(response.data) ? response.data.length : 1`. -/
def originalCount (d : JSValue) : ℤ :=
  match d with
  | .arr xs => xs.length
  | _ => 1

/-- Model of `formatResponse`: error short-circuit on a truthy `error`,
then field selection, then (when any of `page`/`page_size`/`limit` is
truthy) pagination, then mode/format rendering; a `summary` block is
attached on every non-error path. -/
def formatResponse (response : QuiverAPIResponse) (options : ResponseOptions) :
    OptimizedResponse :=
  if optStrTruthy response.error then
    { data := .obj [("error", optToVal response.error),
                    ("status", .num response.status)] }
  else
    let mode := options.mode.getD .detailed
    let format := options.format.getD .json
    let processedData := projectionStage response.data options
    let summary : SummaryInfo :=
      { total_items := originalCount response.data
        fields_included := options.fields.getD ["all"]
        mode := mode
        format := format }
    if numOptTruthy options.page || numOptTruthy options.page_size ||
        numOptTruthy options.limit then
      let paginationResult := applyPagination processedData options
      { data := formatOutput paginationResult.data format mode,
        pagination := some paginationResult.pagination,
        summary := some summary }
    else
      { data := formatOutput processedData format mode,
        pagination := none,
        summary := some summary }

/-- The fixed section-to-keys map of `selectTickerDataSections`. -/
def sectionMap (sec : String) : Option (List String) :=
  if sec = "basic" then
    some ["ticker", "name", "price", "change", "volume", "market_cap"]
  else if sec = "trading" then
    some ["price", "change", "volume", "high", "low", "open", "close", "vwap"]
  else if sec = "congress" then
    some ["congress_trading", "recent_congress_trades", "congress_sentiment",
          "congress_buys", "congress_sells"]
  else if sec = "sentiment" then
    some ["wsb_sentiment", "social_sentiment", "options_flow", "reddit_posts",
          "twitter_sentiment"]
  else if sec = "contracts" then
    some ["gov_contracts", "lobbying_spending", "contract_awards",
          "lobbying_clients"]
  else none

/-- The union of the named sections' key sets (the `fieldsToInclude`
set; membership is all that matters, so a list with possible duplicates
models the `Set`). -/
def sectionFieldSet (sections : List String) : List String :=
  sections.foldl (fun acc s => acc ++ (sectionMap s).getD []) []

/-- Model of `selectTickerDataSections` on an object input (an object is
always truthy, so the source's `!data` guard is vacuous here; non-object
inputs are outside the claim's domain).  `sections` is `none` when the
argument is absent. -/
def selectTickerDataSections (data : List (String × JSValue))
    (sections : Option (List String)) : List (String × JSValue) :=
  match sections with
  | none => data
  | some secs =>
      if secs.contains "all" then data
      else
        let fieldsToInclude := sectionFieldSet secs
        let filtered := data.filter (fun p => fieldsToInclude.contains p.1)
        if filtered.length > 0 then filtered else data

/-- The opening brace character (the character with code 123). -/
def openBrace : Char := Char.ofNat 123

/-- The closing brace character (the character with code 125). -/
def closeBrace : Char := Char.ofNat 125

/-- Is the character a decimal digit? -/
def isDigitChar (c : Char) : Bool := 48 ≤ c.toNat && c.toNat ≤ 57

/-- Is the character a hexadecimal digit as emitted by the escaper
(decimal digits and lowercase `a`–`f`)? -/
def isHexChar (c : Char) : Bool :=
  (48 ≤ c.toNat && c.toNat ≤ 57) || (97 ≤ c.toNat && c.toNat ≤ 102)

/-- Numeric value of a hexadecimal digit character. -/
def hexVal (c : Char) : ℕ :=
  if c.toNat ≤ 57 then c.toNat - 48 else c.toNat - 87

/-- Simple two-character JSON string escapes. -/
def unescapeSimple (c : Char) : Option Char :=
  if c = '"' then some '"'
  else if c = '\\' then some '\\'
  else if c = '/' then some '/'
  else if c = 'n' then some '\n'
  else if c = 't' then some '\t'
  else if c = 'r' then some '\r'
  else if c = 'b' then some (Char.ofNat 8)
  else if c = 'f' then some (Char.ofNat 12)
  else none

/-- Parse the body of a JSON string literal (after the opening quote) up
to and including the closing quote, returning the decoded characters and
the rest of the input.  The first argument is recursion fuel; one unit
is spent per decoded character, so any fuel exceeding the number of
decoded characters (for instance the input length) suffices. -/
def parseStrChars : ℕ → List Char → Option (List Char × List Char)
  | 0, _ => none
  | _, [] => none
  | fuel + 1, c :: rest =>
      if c = '"' then some ([], rest)
      else if c = '\\' then
        match rest with
        | [] => none
        | e :: rest2 =>
            if e = 'u' then
              match rest2 with
              | h1 :: h2 :: h3 :: h4 :: rest3 =>
                  if isHexChar h1 && isHexChar h2 && isHexChar h3 && isHexChar h4 then
                    (parseStrChars fuel rest3).map (fun p =>
                      (Char.ofNat ((((hexVal h1 * 16 + hexVal h2) * 16 + hexVal h3) * 16)
                        + hexVal h4) :: p.1, p.2))
                  else none
              | _ => none
            else
              match unescapeSimple e with
              | some c2 => (parseStrChars fuel rest2).map (fun p => (c2 :: p.1, p.2))
              | none => none
      else (parseStrChars fuel rest).map (fun p => (c :: p.1, p.2))

/-- Parse a maximal run of decimal digits, with accumulator. -/
def parseDigits : ℕ → List Char → ℕ × List Char
  | acc, [] => (acc, [])
  | acc, c :: rest =>
      if isDigitChar c then parseDigits (acc * 10 + (c.toNat - 48)) rest
      else (acc, c :: rest)

mutual

/-- Parse one JSON value (whitespace-free grammar, which is all
`JSON.stringify` emits).  The first argument is recursion fuel; any fuel
larger than the structural size of the printed value suffices. -/
def parseVal : ℕ → List Char → Option (JSValue × List Char)
  | 0, _ => none
  | fuel + 1, input =>
      match input with
      | [] => none
      | c :: rest =>
          if c = 'n' then
            match rest with
            | 'u' :: 'l' :: 'l' :: r => some (.null, r)
            | _ => none
          else if c = 't' then
            match rest with
            | 'r' :: 'u' :: 'e' :: r => some (.bool true, r)
            | _ => none
          else if c = 'f' then
            match rest with
            | 'a' :: 'l' :: 's' :: 'e' :: r => some (.bool false, r)
            | _ => none
          else if c = '"' then
            (parseStrChars (rest.length + 1) rest).map (fun p =>
              (.str (String.mk p.1), p.2))
          else if c = '[' then
            (parseElems fuel rest).map (fun p => (.arr p.1, p.2))
          else if c = openBrace then
            (parseMembers fuel rest).map (fun p => (.obj p.1, p.2))
          else if c = '-' then
            match rest with
            | d :: _ =>
                if isDigitChar d then
                  let p := parseDigits 0 rest
                  some (.num (-(p.1 : ℤ)), p.2)
                else none
            | [] => none
          else if isDigitChar c then
            let p := parseDigits 0 (c :: rest)
            some (.num (p.1 : ℤ), p.2)
          else none

/-- Parse the elements of a JSON array after the opening bracket,
consuming the closing bracket. -/
def parseElems : ℕ → List Char → Option (List JSValue × List Char)
  | 0, _ => none
  | fuel + 1, input =>
      match input with
      | [] => none
      | c :: rest =>
          if c = ']' then some ([], rest)
          else
            match parseVal fuel input with
            | some (v, rest1) =>
                match rest1 with
                | c1 :: rest2 =>
                    if c1 = ',' then
                      (parseElems fuel rest2).map (fun p => (v :: p.1, p.2))
                    else if c1 = ']' then some ([v], rest2)
                    else none
                | [] => none
            | none => none

/-- Parse the members of a JSON object after the opening brace,
consuming the closing brace. -/
def parseMembers : ℕ → List Char → Option (List (String × JSValue) × List Char)
  | 0, _ => none
  | fuel + 1, input =>
      match input with
      | [] => none
      | c :: rest =>
          if c = closeBrace then some ([], rest)
          else if c = '"' then
            match parseStrChars (rest.length + 1) rest with
            | some (kcs, rest2) =>
                match rest2 with
                | c2 :: rest3 =>
                    if c2 = ':' then
                      match parseVal fuel rest3 with
                      | some (v, rest4) =>
                          match rest4 with
                          | c4 :: rest5 =>
                              if c4 = ',' then
                                (parseMembers fuel rest5).map (fun p =>
                                  ((String.mk kcs, v) :: p.1, p.2))
                              else if c4 = closeBrace then
                                some ([(String.mk kcs, v)], rest5)
                              else none
                          | [] => none
                      | none => none
                    else none
                | [] => none
            | none => none
          else none

end

mutual

/-- Nesting depth of a value: the recursion depth the parser needs,
used to bound the parser fuel (any fuel at least this large parses the
printed value; the printed length is such a bound). -/
def sizeV : JSValue → ℕ
  | .arr xs => sizeL xs + 1
  | .obj kvs => sizeM kvs + 1
  | _ => 1

/-- Fuel needed to parse a printed element list (with its closing
bracket). -/
def sizeL : List JSValue → ℕ
  | [] => 1
  | v :: tl => max (sizeV v) (sizeL tl) + 1

/-- Fuel needed to parse a printed member list (with its closing
brace). -/
def sizeM : List (String × JSValue) → ℕ
  | [] => 1
  | (_, v) :: tl => max (sizeV v) (sizeM tl) + 1

end

mutual

/-- A value is JSON-serializable when it contains no `undefined`
anywhere (the domain on which `JSON.stringify` is lossless). -/
def wellFormedV : JSValue → Bool
  | .undefined => false
  | .arr xs => wellFormedL xs
  | .obj kvs => wellFormedM kvs
  | _ => true

/-- All elements JSON-serializable. -/
def wellFormedL : List JSValue → Bool
  | [] => true
  | v :: tl => wellFormedV v && wellFormedL tl

/-- All member values JSON-serializable. -/
def wellFormedM : List (String × JSValue) → Bool
  | [] => true
  | (_, v) :: tl => wellFormedV v && wellFormedM tl

end

/-- Does the input not begin with a decimal digit (the boundary
condition after a printed number)? -/
def noDigitHead : List Char → Bool
  | [] => true
  | c :: _ => !isDigitChar c

/-- Model of `JSON.parse` (restricted to the whitespace-free grammar
that `JSON.stringify` emits; extra leading whitespace tolerance of the
runtime parser is irrelevant to round-trips).  Returns `none` where
`JSON.parse` throws. -/
def jsonParse (s : String) : Option JSValue :=
  match parseVal (s.length + 1) s.data with
  | some (v, []) => some v
  | _ => none

/-! ### Supporting lemmas -/

/-- Floor of an integer quotient over ℚ is Euclidean division by a
positive divisor. -/
theorem floorq_intCast_div (a b : ℤ) (hb : 0 < b) :
    ⌊(a : ℚ) / (b : ℚ)⌋ = a / b := by
  have h := Rat.floor_intCast_div_natCast a b.toNat
  have hbq : ((b.toNat : ℕ) : ℚ) = (b : ℚ) := by
    exact_mod_cast congrArg (fun z : ℤ => (z : ℚ)) (Int.toNat_of_nonneg hb.le)
  rw [hbq] at h
  rw [h, Int.toNat_of_nonneg hb.le]

/-- The executable `jsCeilDiv` computes the rational ceiling of the
quotient, i.e. JavaScript `Math.ceil(a / b)`, for every nonzero `b`. -/
theorem jsCeilDiv_eq_ceil (a b : ℤ) (hb : b ≠ 0) :
    jsCeilDiv a b = Int.ceil ((a : ℚ) / (b : ℚ)) := by
  rcases lt_or_gt_of_ne hb with hneg | hpos
  · unfold jsCeilDiv
    rw [if_neg (by omega)]
    have h := floorq_intCast_div a (-b) (by omega)
    have hx : ((a : ℚ)) / ((b : ℚ)) = -((a : ℚ) / ((-b : ℤ) : ℚ)) := by
      push_cast
      field_simp
    rw [hx, Int.ceil_neg, h]
  · unfold jsCeilDiv
    rw [if_pos hpos.le]
    have h := floorq_intCast_div (-a) b hpos
    have hx : ((a : ℚ)) / ((b : ℚ)) = -(((-a : ℤ) : ℚ) / ((b : ℤ) : ℚ)) := by
      push_cast
      ring
    rw [hx, Int.ceil_neg, h]

/-- Looking up the key just assigned yields the assigned value. -/
theorem lookupKey_setKey_self (o : List (String × JSValue)) (k : String) (v : JSValue) :
    lookupKey (setKey o k v) k = some v := by
  induction o with
  | nil => simp [setKey, lookupKey]
  | cons p tl ih =>
      obtain ⟨k', v'⟩ := p
      by_cases h : k' = k
      · simp [setKey, lookupKey, h]
      · simp [setKey, lookupKey, h, ih]

/-- Assignment to one key leaves lookups of other keys unchanged. -/
theorem lookupKey_setKey_other (o : List (String × JSValue)) (k k' : String)
    (v : JSValue) (hne : k' ≠ k) :
    lookupKey (setKey o k v) k' = lookupKey o k' := by
  induction o with
  | nil => simp [setKey, lookupKey, Ne.symm hne]
  | cons p tl ih =>
      obtain ⟨k0, v0⟩ := p
      by_cases h : k0 = k
      · subst h
        simp [setKey, lookupKey, Ne.symm hne]
      · by_cases h' : k0 = k'
        · simp [setKey, lookupKey, h, h', hne]
        · simp [setKey, lookupKey, h, h', ih]

/-- A lookup misses exactly when the key is not among the keys. -/
theorem lookupKey_eq_none_iff (o : List (String × JSValue)) (k : String) :
    lookupKey o k = none ↔ k ∉ o.map Prod.fst := by
  induction o with
  | nil => simp [lookupKey]
  | cons p tl ih =>
      obtain ⟨k0, v0⟩ := p
      by_cases h : k0 = k
      · simp [lookupKey, h]
      · simp only [lookupKey, if_neg h, List.map_cons, List.mem_cons]
        rw [ih]
        constructor
        · rintro hm (rfl | hm2)
          · exact h rfl
          · exact hm hm2
        · intro hm hm2
          exact hm (Or.inr hm2)

/-- The projection fold of `selectItem` over an object `kvs`:
lookups in the accumulated selection. -/
theorem selectFold_lookup (kvs : List (String × JSValue)) (fs : List String)
    (acc : List (String × JSValue)) (k : String) :
    lookupKey (fs.foldl (fun acc f =>
        if jsHas (.obj kvs) f then setKey acc f (jsGet (.obj kvs) f) else acc) acc) k =
      if k ∈ fs ∧ (lookupKey kvs k).isSome = true
      then some ((lookupKey kvs k).getD .undefined)
      else lookupKey acc k := by
  induction fs generalizing acc with
  | nil => simp
  | cons f rest ih =>
      rw [List.foldl_cons, ih]
      by_cases hrest : k ∈ rest ∧ (lookupKey kvs k).isSome = true
      · rw [if_pos hrest, if_pos ⟨List.mem_cons_of_mem f hrest.1, hrest.2⟩]
      · rw [if_neg hrest]
        by_cases hkf : k = f
        · subst hkf
          by_cases hhas : (lookupKey kvs k).isSome = true
          · have : jsHas (.obj kvs) k = true := by
              simp [jsHas, hhas]
            rw [if_pos this, if_pos ⟨List.mem_cons_self k rest, hhas⟩]
            rw [lookupKey_setKey_self]
            simp [jsGet]
          · have : ¬ (jsHas (.obj kvs) k = true) := by
              simp [jsHas, hhas]
            rw [if_neg this, if_neg (by
              rintro ⟨_, hs⟩
              exact hhas hs)]
        · have hnot : ¬ (k ∈ f :: rest ∧ (lookupKey kvs k).isSome = true) := by
            rintro ⟨hmem, hs⟩
            rcases List.mem_cons.mp hmem with rfl | hmem2
            · exact hkf rfl
            · exact hrest ⟨hmem2, hs⟩
          rw [if_neg hnot]
          by_cases hhas : jsHas (.obj kvs) f = true
          · rw [if_pos hhas, lookupKey_setKey_other _ _ _ _ hkf]
          · rw [if_neg hhas]

/-- When no requested field exists on the object, the projection fold
accumulates nothing. -/
theorem selectFold_nil (kvs : List (String × JSValue)) :
    ∀ fs : List String, (∀ f ∈ fs, lookupKey kvs f = none) →
    ∀ acc, fs.foldl (fun acc f =>
      if jsHas (.obj kvs) f then setKey acc f (jsGet (.obj kvs) f) else acc) acc = acc := by
  intro fs
  induction fs with
  | nil => intro _ acc; rfl
  | cons f rest ih =>
      intro hnone acc
      rw [List.foldl_cons]
      have hnf : ¬ (jsHas (.obj kvs) f = true) := by
        simp [jsHas, hnone f (List.mem_cons_self f rest)]
      rw [if_neg hnf]
      exact ih (fun g hg => hnone g (List.mem_cons_of_mem _ hg)) acc

/-! ### Claim C1: error short-circuit -/

/-- C1, counterexample: an envelope whose `error` field is set to the
empty string is not short-circuited — `formatResponse` proceeds to the
success path and attaches a `summary`, because the JavaScript guard
`if (response.error)` tests truthiness, and the empty string is falsy. -/
theorem c1_counterexample :
    (QuiverAPIResponse.mk (.arr []) (some "") 200).error.isSome = true ∧
    (formatResponse (QuiverAPIResponse.mk (.arr []) (some "") 200) {}).summary.isSome
      = true :=
  ⟨rfl, rfl⟩

/-- C1 (amended): for every envelope whose `error` field is set to a
non-empty string and for every options value, `formatResponse` returns
exactly `{ data: { error, status } }` with no `summary` and no
`pagination`, performing no further processing. -/
theorem c1_error_short_circuit (r : QuiverAPIResponse) (opts : ResponseOptions)
    (s : String) (hs : r.error = some s) (hne : s ≠ "") :
    formatResponse r opts =
      { data := .obj [("error", .str s), ("status", .num r.status)],
        pagination := none, summary := none } := by
  unfold formatResponse
  rw [hs]
  simp [optStrTruthy, optToVal, hne]

/-- C1 witness: the short-circuit theorem evaluated on the spec's
`{error:'timeout', status:500}` scenario. -/
theorem c1_witness :
    formatResponse (QuiverAPIResponse.mk .undefined (some "timeout") 500)
        { mode := some .summary, limit := some 10 } =
      { data := .obj [("error", .str "timeout"), ("status", .num 500)],
        pagination := none, summary := none } :=
  c1_error_short_circuit _ _ "timeout" rfl (by decide)

/-! ### Claim C3: pagination presence -/

/-- C3, counterexample: the options value `{page: 0}` supplies one of
the three pagination options, yet the output carries no `pagination`
block — the trigger `options.page || options.page_size || options.limit`
tests truthiness and `0` is falsy. -/
theorem c3_counterexample :
    (({ page := some 0 } : ResponseOptions)).page.isSome = true ∧
    (formatResponse (QuiverAPIResponse.mk (.arr [.num 1]) none 200)
        { page := some 0 }).pagination = none :=
  ⟨rfl, rfl⟩

/-- C3 (amended): on a non-error envelope, the output carries a
`pagination` block iff at least one of `page`/`page_size`/`limit` was
supplied with a truthy (nonzero) value; when all three are absent the
returned data is the bare mode/format-rendered value with no pagination
metadata attached. -/
theorem c3_pagination_presence (r : QuiverAPIResponse) (opts : ResponseOptions)
    (herr : optStrTruthy r.error = false) :
    ((formatResponse r opts).pagination.isSome = true ↔
      (numOptTruthy opts.page || numOptTruthy opts.page_size ||
        numOptTruthy opts.limit) = true) ∧
    (opts.page = none → opts.page_size = none → opts.limit = none →
      (formatResponse r opts).pagination = none ∧
      (formatResponse r opts).data =
        formatOutput (projectionStage r.data opts) (opts.format.getD .json)
          (opts.mode.getD .detailed)) := by
  unfold formatResponse
  rw [herr]
  simp only [Bool.false_eq_true, if_false]
  constructor
  · by_cases htrig :
      (numOptTruthy opts.page || numOptTruthy opts.page_size ||
        numOptTruthy opts.limit) = true
    · simp [htrig]
    · rw [if_neg htrig]
      simp [htrig]
  · intro hp hps hl
    simp [hp, hps, hl, numOptTruthy]

/-- C3 witness: the presence of a `pagination` block under a truthy
`limit`, by the amended theorem at a concrete envelope. -/
theorem c3_witness :
    (formatResponse (QuiverAPIResponse.mk (.arr [.num 1]) none 200)
        { limit := some 2 }).pagination.isSome = true :=
  ((c3_pagination_presence (QuiverAPIResponse.mk (.arr [.num 1]) none 200)
    { limit := some 2 } rfl).1).mpr (by decide)

/-! ### Claim C5: the limiting stage -/

/-- C5, counterexample: with `limit = 0` (which the claim's range
`n ≥ 0` includes) the limiting stage leaves the array whole — the guard
`limit && limit > 0` is falsy at `0` — so the limited array does not
have the claimed length `min(0, length) = 0`. -/
theorem c5_counterexample :
    limitStage [.num 7] (some 0) = [.num 7] ∧
    ¬ ((limitStage [.num 7] (some 0)).length = min 0 1) :=
  ⟨rfl, by decide⟩

/-- C5 (amended): for a supplied positive `limit = n > 0` the limited
array is a prefix of the original of length `min(n, length)` (positional
truncation only); for `n ≤ 0` (and for an absent limit) the stage leaves
the array unchanged. -/
theorem c5_limiting_stage (xs : List JSValue) (n : ℤ) :
    (0 < n → limitStage xs (some n) <+: xs ∧
      ((limitStage xs (some n)).length : ℤ) = min n (xs.length : ℤ)) ∧
    (n ≤ 0 → limitStage xs (some n) = xs) ∧
    limitStage xs none = xs := by
  have hunfold : limitStage xs (some n) =
      if (n != 0 && decide (n > 0)) = true then jsSlice xs 0 n else xs := rfl
  refine ⟨fun hn => ?_, fun hn => ?_, rfl⟩
  · have hcond : (n != 0 && decide (n > 0)) = true := by
      simp only [Bool.and_eq_true, bne_iff_ne, ne_eq, decide_eq_true_eq]
      omega
    rw [hunfold, if_pos hcond]
    have hzero : jsSliceIndex 0 xs.length = 0 := by
      unfold jsSliceIndex
      rw [if_neg (by omega : ¬ ((0:ℤ) < 0))]
      exact min_eq_left (by positivity)
    have hslice : jsSlice xs 0 n = xs.take (min n (xs.length : ℤ)).toNat := by
      unfold jsSlice
      rw [hzero]
      unfold jsSliceIndex
      rw [if_neg (by omega : ¬ (n < 0))]
      simp
    rw [hslice]
    refine ⟨List.take_prefix _ xs, ?_⟩
    rw [List.length_take]
    omega
  · have hcond : ¬ ((n != 0 && decide (n > 0)) = true) := by
      simp only [Bool.and_eq_true, bne_iff_ne, ne_eq, decide_eq_true_eq, not_and]
      intro _
      omega
    rw [hunfold, if_neg hcond]

/-- C5 witness: the amended limiting property at `limit = 2` on a
three-element array. -/
theorem c5_witness :
    limitStage [.num 1, .num 2, .num 3] (some 2) <+: [.num 1, .num 2, .num 3] ∧
    ((limitStage [.num 1, .num 2, .num 3] (some 2)).length : ℤ) = min 2 3 :=
  (c5_limiting_stage [.num 1, .num 2, .num 3] 2).1 (by decide)

/-! ### Claim C6: mode/format interaction -/

/-- C6, counterexample: `format='table'` with `mode='summary'` renders
the Markdown table of the **original** array elements, not of the
summary object — `formatOutput` never consults `mode` in its `table`
branch.  (A table of the summary object would not even be a field table:
`formatAsTable` of the non-array summary object is the
`"No data available"` string.) -/
theorem c6_counterexample :
    formatOutput (.arr [.obj [("a", .num 1)], .obj [("a", .num 2)]]) .table .summary
      = .str "| a |\n| --- |\n| 1 |\n| 2 |" ∧
    formatAsTable (createSummary (.arr [.obj [("a", .num 1)], .obj [("a", .num 2)]]))
      = "No data available" ∧
    ("| a |\n| --- |\n| 1 |\n| 2 |" : String) ≠ "No data available" :=
  ⟨rfl, rfl, by decide⟩

/-- C6 (amended): format and mode are independently selectable, but
rendering operates on the mode-transformed data only for `format='json'`;
for `table` and `csv` the mode is ignored and the output is the
table/CSV of the post-pagination data itself. -/
theorem c6_mode_format (d : JSValue) (m m' : ResponseMode) :
    formatOutput d .table m = formatOutput d .table m' ∧
    formatOutput d .csv m = formatOutput d .csv m' ∧
    formatOutput d .table m = .str (formatAsTable d) ∧
    formatOutput d .csv m = .str (formatAsCSV d) ∧
    formatOutput d .json m = formatAsJSON d m :=
  ⟨rfl, rfl, rfl, rfl, rfl⟩

/-! ### Claim C9: malformed pagination options -/

/-- C9, counterexample: a zero `page_size` **does** receive the default
50 — `options.page_size || 50` coerces every falsy value — so the output
is ordinary finite pagination with `page_size = 50`, never
`total_pages = Infinity`. -/
theorem c9_counterexample :
    (applyPagination (.arr (List.replicate 10 (.obj [("a", .num 1)])))
        { page_size := some 0 }).pagination =
      { current_page := 1, page_size := 50, total_items := 10,
        total_pages := 1, has_next := false, has_previous := false } := by
  decide

/-- C9 (amended): malformed pagination options are not rejected: the
`page_size` default of 50 applies whenever `page_size` is absent **or
zero** (any falsy value), so a zero `page_size` yields ordinary finite
pagination; a negative `page_size` is used as-is and produces
degenerate but non-crashing output (a non-positive `total_pages`). -/
theorem c9_pagesize_defaults (xs : List JSValue) (opts : ResponseOptions) :
    ((opts.page_size = some 0 ∨ opts.page_size = none) →
      (applyPagination (.arr xs) opts).pagination.page_size = 50) ∧
    (∀ n : ℤ, opts.page_size = some n → n ≠ 0 →
      (applyPagination (.arr xs) opts).pagination.page_size = n) ∧
    (∀ n : ℤ, opts.page_size = some n → n < 0 →
      (applyPagination (.arr xs) opts).pagination.total_pages ≤ 0) := by
  refine ⟨fun h => ?_, fun n hn hne => ?_, fun n hn hneg => ?_⟩
  · rcases h with h | h <;> simp [applyPagination, jsNumOr, h]
  · simp [applyPagination, jsNumOr, hn, hne]
  · have hne : n ≠ 0 := by omega
    simp only [applyPagination, jsNumOr, hn, if_neg hne]
    rw [jsCeilDiv_eq_ceil _ _ hne]
    rw [show (0 : ℤ) = ((0 : ℤ)) from rfl, Int.ceil_le]
    push_cast
    apply div_nonpos_of_nonneg_of_nonpos
    · positivity
    · exact_mod_cast hneg.le

/-- C9 witness: the amended default behaviour at `page_size = 0` and the
degenerate-but-defined behaviour at `page_size = -5`. -/
theorem c9_witness :
    (applyPagination (.arr [.num 1]) { page_size := some 0 }).pagination.page_size
      = 50 ∧
    (applyPagination (.arr [.num 1]) { page_size := some (-5) }).pagination.total_pages
      ≤ 0 :=
  ⟨(c9_pagesize_defaults [.num 1] { page_size := some 0 }).1 (Or.inl rfl),
   (c9_pagesize_defaults [.num 1] { page_size := some (-5) }).2.2 (-5) rfl (by decide)⟩

/-! ### Claim C4: field projection -/

/-- C4: field projection is applied only when `fields` is present, the
`explicitFields` flag is set and the data is an array (anything else
passes through unmodified); per object, exactly the requested keys that
exist are kept with their values, a requested key absent on an object is
silently skipped, an object with none of the requested keys is returned
unchanged (never an empty object), and non-object items pass through. -/
theorem c4_field_projection :
    (∀ (d : JSValue) (opts : ResponseOptions),
      (opts.fields = none ∨ opts.explicitFields ≠ some true ∨ isArray d = false) →
      projectionStage d opts = d) ∧
    (∀ (xs : List JSValue) (fs : List String),
      (selectFields xs fs).length = xs.length) ∧
    (∀ (fs : List String) (v : JSValue),
      isObjectRef v = false → selectItem fs v = v) ∧
    (∀ (fs : List String) (kvs : List (String × JSValue)),
      (∀ f ∈ fs, lookupKey kvs f = none) → selectItem fs (.obj kvs) = .obj kvs) ∧
    (∀ (fs : List String) (kvs : List (String × JSValue)) (f0 : String),
      f0 ∈ fs → (lookupKey kvs f0).isSome = true →
      ∃ kvs2, selectItem fs (.obj kvs) = .obj kvs2 ∧
        (∀ k, (lookupKey kvs2 k).isSome = true ↔
          (k ∈ fs ∧ (lookupKey kvs k).isSome = true)) ∧
        (∀ k, k ∈ fs → lookupKey kvs2 k = lookupKey kvs k)) ∧
    (∀ (xs : List JSValue) (fs : List String),
      fs ≠ [] → selectFields xs fs = xs.map (selectItem fs)) := by
  refine ⟨?_, ?_, ?_, ?_, ?_, ?_⟩
  · rintro d opts (hf | hef | harr)
    · cases d <;> simp [projectionStage, hf]
    · cases d <;> cases hfs : opts.fields <;> simp [projectionStage, hef, hfs]
    · cases d <;> cases hfs : opts.fields <;> simp_all [projectionStage, isArray]
  · intro xs fs
    unfold selectFields
    split
    · rfl
    · exact List.length_map xs (selectItem fs)
  · intro fs v hv
    unfold selectItem
    rw [if_neg (by simp [hv])]
  · intro fs kvs hnone
    unfold selectItem
    rw [if_pos (by simp [isObjectRef])]
    simp [selectFold_nil kvs fs hnone]
  · intro fs kvs f0 hf0 hsome
    have hfold := selectFold_lookup kvs fs []
    set selected := fs.foldl (fun acc f =>
      if jsHas (.obj kvs) f then setKey acc f (jsGet (.obj kvs) f) else acc) [] with hsel
    have hne : selected ≠ [] := by
      intro hempty
      have := hfold f0
      rw [if_pos ⟨hf0, hsome⟩, hempty] at this
      simp [lookupKey] at this
    refine ⟨selected, ?_, ?_, ?_⟩
    · unfold selectItem
      rw [if_pos (by simp [isObjectRef])]
      rw [← hsel]
      simp [List.isEmpty_iff, hne]
    · intro k
      rw [hfold k]
      by_cases hk : k ∈ fs ∧ (lookupKey kvs k).isSome = true
      · simp [hk]
      · rw [if_neg hk]
        simp [lookupKey, hk]
    · intro k hk
      rw [hfold k]
      by_cases hks : (lookupKey kvs k).isSome = true
      · rw [if_pos ⟨hk, hks⟩]
        obtain ⟨v, hv⟩ := Option.isSome_iff_exists.mp hks
        rw [hv]
        rfl
      · rw [if_neg (by rintro ⟨_, h⟩; exact hks h)]
        rw [Option.not_isSome_iff_eq_none.mp hks]
        rfl
  · intro xs fs hfs
    unfold selectFields
    rw [if_neg (by simp [List.isEmpty_iff, hfs])]

/-- C4 witness: the projection-safety scenario of the spec — both
objects lack the single requested key `c`, so the item is returned
unchanged — and the default-fields asymmetry: `fields` supplied without
`explicitFields` does not project. -/
theorem c4_witness :
    selectItem ["c"] (.obj [("a", .num 1), ("b", .num 2)])
      = .obj [("a", .num 1), ("b", .num 2)] ∧
    projectionStage (.arr [.obj [("a", .num 1), ("b", .num 2)]])
        { fields := some ["a"] }
      = .arr [.obj [("a", .num 1), ("b", .num 2)]] ∧
    ∃ kvs2, selectItem ["a", "c"] (.obj [("a", .num 1), ("b", .num 2)]) = .obj kvs2 ∧
      (∀ k, (lookupKey kvs2 k).isSome = true ↔
        (k ∈ ["a", "c"] ∧
          (lookupKey [("a", .num 1), ("b", .num 2)] k).isSome = true)) ∧
      (∀ k, k ∈ ["a", "c"] →
        lookupKey kvs2 k = lookupKey [("a", .num 1), ("b", .num 2)] k) :=
  ⟨c4_field_projection.2.2.2.1 ["c"] [("a", .num 1), ("b", .num 2)]
    (fun f hf => by rw [List.mem_singleton.mp hf]; simp [lookupKey]),
   c4_field_projection.1 _ _ (Or.inr (Or.inl (by simp))),
   c4_field_projection.2.2.2.2.1 ["a", "c"] [("a", .num 1), ("b", .num 2)] "a"
    (by simp) (by rfl)⟩

/-! ### Claim C8: the ticker-data section selector -/

/-- C8: the section selector returns the object unchanged when the
section list is absent, empty, or contains the sentinel `all`; otherwise
it keeps exactly the top-level keys lying in the union of the named
sections' key sets — except that a selection that would be empty falls
back to the whole original object — and unknown section names contribute
no keys and are not an error. -/
theorem c8_section_selector :
    (∀ data, selectTickerDataSections data none = data) ∧
    (∀ data secs, "all" ∈ secs →
      selectTickerDataSections data (some secs) = data) ∧
    (∀ data, selectTickerDataSections data (some []) = data) ∧
    (∀ (data : List (String × JSValue)) (secs : List String), "all" ∉ secs →
      ((∃ p ∈ data, p.1 ∈ sectionFieldSet secs) →
        ∃ out, selectTickerDataSections data (some secs) = out ∧
          (∀ k, k ∈ out.map Prod.fst ↔
            (k ∈ data.map Prod.fst ∧ k ∈ sectionFieldSet secs)) ∧
          (∀ p, p ∈ out → p ∈ data)) ∧
      ((∀ p ∈ data, p.1 ∉ sectionFieldSet secs) →
        selectTickerDataSections data (some secs) = data)) ∧
    (∀ data (s : String) secs, sectionMap s = none → s ≠ "all" →
      selectTickerDataSections data (some (s :: secs)) =
        selectTickerDataSections data (some secs)) := by
  refine ⟨fun data => rfl, ?_, ?_, ?_, ?_⟩
  · intro data secs hall
    simp only [selectTickerDataSections]
    rw [if_pos (List.elem_iff.mpr hall)]
  · intro data
    simp only [selectTickerDataSections]
    rw [if_neg (by simp)]
    simp [sectionFieldSet, List.filter_eq_nil_iff]
  · intro data secs hall
    have hnall : ¬ (secs.contains "all" = true) := by
      simp [List.elem_iff, hall]
    constructor
    · rintro ⟨p, hp, hpf⟩
      refine ⟨data.filter (fun q => (sectionFieldSet secs).contains q.1), ?_, ?_, ?_⟩
      · simp only [selectTickerDataSections]
        rw [if_neg hnall]
        have hne : data.filter (fun q => (sectionFieldSet secs).contains q.1) ≠ [] := by
          rw [ne_eq, List.filter_eq_nil_iff]
          push_neg
          exact ⟨p, hp, by simp [List.elem_iff, hpf]⟩
        rw [if_pos (by
          simpa [List.length_pos_iff_ne_nil] using hne)]
      · intro k
        simp only [List.mem_map, List.mem_filter]
        constructor
        · rintro ⟨q, ⟨hq, hqf⟩, rfl⟩
          exact ⟨⟨q, hq, rfl⟩, by simpa [List.elem_iff] using hqf⟩
        · rintro ⟨⟨q, hq, rfl⟩, hkf⟩
          exact ⟨q, ⟨hq, by simpa [List.elem_iff] using hkf⟩, rfl⟩
      · intro q hq
        exact (List.mem_filter.mp hq).1
    · intro hnone
      simp only [selectTickerDataSections]
      rw [if_neg hnall]
      have hnil : data.filter (fun q => (sectionFieldSet secs).contains q.1) = [] := by
        rw [List.filter_eq_nil_iff]
        intro q hq
        simp [List.elem_iff, hnone q hq]
      rw [hnil]
      simp
  · intro data s secs hs hsall
    have h2 : sectionFieldSet (s :: secs) = sectionFieldSet secs := by
      unfold sectionFieldSet
      rw [List.foldl_cons]
      simp [hs]
    have h1 : ((s :: secs).contains "all") = (secs.contains "all") := by
      simp [List.elem_iff, Ne.symm hsall]
    simp only [selectTickerDataSections]
    rw [h2, h1]

/-- C8 witness: the spec's degrade-to-safe scenario — requesting
`sections:['basic']` on an object that has only `congress_trading`
returns the original object unchanged. -/
theorem c8_witness :
    selectTickerDataSections [("congress_trading", .num 1)] (some ["basic"])
      = [("congress_trading", .num 1)] :=
  (c8_section_selector.2.2.2.1 [("congress_trading", .num 1)] ["basic"]
      (by decide)).2
    (fun p hp => by rw [List.mem_singleton.mp hp]; decide)

/-! ### Claim C10: falsy values in table and CSV output -/

/-- Lookup in an object filtered to its truthy-valued members, for an
object with distinct keys. -/
theorem lookupKey_filter_truthy (kvs : List (String × JSValue)) (k : String)
    (hnd : (kvs.map Prod.fst).Nodup) :
    lookupKey (kvs.filter (fun p => truthy p.2)) k =
      match lookupKey kvs k with
      | some v => if truthy v then some v else none
      | none => none := by
  induction kvs with
  | nil => rfl
  | cons p tl ih =>
      obtain ⟨k0, v0⟩ := p
      have hk0 : k0 ∉ tl.map Prod.fst := (List.nodup_cons.mp hnd).1
      have hnd' : (tl.map Prod.fst).Nodup := (List.nodup_cons.mp hnd).2
      by_cases hk : k0 = k
      · subst hk
        by_cases htr : truthy v0 = true
        · simp [List.filter_cons, htr, lookupKey]
        · have hmiss : lookupKey (tl.filter (fun p => truthy p.2)) k0 = none := by
            rw [lookupKey_eq_none_iff]
            intro hmem
            obtain ⟨q, hq, hq1⟩ := List.mem_map.mp hmem
            exact hk0 (List.mem_map.mpr ⟨q, (List.mem_filter.mp hq).1, hq1⟩)
          simp [List.filter_cons, htr, lookupKey, hmiss]
      · by_cases htr : truthy v0 = true
        · simp [List.filter_cons, htr, lookupKey, hk, ih hnd']
        · simp [List.filter_cons, htr, lookupKey, hk, ih hnd']

/-- A table cell and a CSV cell agree between an object and that object
with its falsy-valued members removed (distinct keys assumed, as
JavaScript objects have). -/
theorem cell_filter_truthy (kvs : List (String × JSValue))
    (hnd : (kvs.map Prod.fst).Nodup) (h : String) :
    tableCell (.obj kvs) h =
      tableCell (.obj (kvs.filter (fun p => truthy p.2))) h ∧
    csvCell (.obj kvs) h =
      csvCell (.obj (kvs.filter (fun p => truthy p.2))) h := by
  unfold tableCell csvCell
  simp only [jsGet]
  rw [lookupKey_filter_truthy _ _ hnd]
  cases hlk : lookupKey kvs h with
  | none => simp
  | some v =>
      by_cases htr : truthy v = true
      · simp [htr]
      · have htr' : truthy v = false := by simpa using htr
        simp only [Option.getD_some, htr', Bool.false_eq_true, if_false]
        exact ⟨rfl, rfl⟩

/-- C10: in table and CSV output, any falsy field value (`0`, `false`,
`null`, the empty string — or a missing key, which reads as `undefined`)
renders as the empty string, because cells are computed as
`String(item[header] || '')`; consequently, for every array of objects,
removing the falsy-valued fields of the row objects leaves every
rendered table/CSV cell unchanged — falsy values are indistinguishable
from absent fields in the rendered output. -/
theorem c10_falsy_rendering :
    (∀ (item : JSValue) (h : String), truthy (jsGet item h) = false →
      tableCell item h = "" ∧ csvCell item h = "") ∧
    (∀ (hs : List String) (kvs : List (String × JSValue)),
      (kvs.map Prod.fst).Nodup →
      hs.map (tableCell (.obj kvs)) =
        hs.map (tableCell (.obj (kvs.filter (fun p => truthy p.2)))) ∧
      hs.map (csvCell (.obj kvs)) =
        hs.map (csvCell (.obj (kvs.filter (fun p => truthy p.2))))) := by
  constructor
  · intro item h hf
    unfold tableCell csvCell
    rw [hf]
    exact ⟨rfl, rfl⟩
  · intro hs kvs hnd
    constructor
    · exact List.map_congr_left (fun h _ => (cell_filter_truthy kvs hnd h).1)
    · exact List.map_congr_left (fun h _ => (cell_filter_truthy kvs hnd h).2)

/-- C10 witness: a zero-valued field, a `false`-valued field and a
missing field all render as the empty cell, and dropping falsy fields
leaves the rendered row unchanged. -/
theorem c10_witness :
    (tableCell (.obj [("a", .num 0)]) "a" = "" ∧
      csvCell (.obj [("a", .num 0)]) "a" = "") ∧
    (tableCell (.obj [("a", .bool false)]) "a" = "" ∧
      csvCell (.obj [("a", .bool false)]) "a" = "") ∧
    (tableCell (.obj [("b", .num 1)]) "a" = "" ∧
      csvCell (.obj [("b", .num 1)]) "a" = "") ∧
    ["a", "b"].map (tableCell (.obj [("a", .num 0), ("b", .str "x")])) =
      ["a", "b"].map (tableCell
        (.obj ([("a", .num 0), ("b", .str "x")].filter (fun p => truthy p.2)))) :=
  ⟨c10_falsy_rendering.1 (.obj [("a", .num 0)]) "a" (by rfl),
   c10_falsy_rendering.1 (.obj [("a", .bool false)]) "a" (by rfl),
   c10_falsy_rendering.1 (.obj [("b", .num 1)]) "a" (by rfl),
   (c10_falsy_rendering.2 ["a", "b"] [("a", .num 0), ("b", .str "x")]
     (by decide)).1⟩

/-! ### Claim C2: pagination arithmetic -/

/-- Field selection preserves the array length. -/
theorem selectFields_length (xs : List JSValue) (fs : List String) :
    (selectFields xs fs).length = xs.length := by
  unfold selectFields
  split
  · rfl
  · exact List.length_map xs (selectItem fs)

/-- The projection stage maps an array to an array of the same
length. -/
theorem projectionStage_arr (xs : List JSValue) (opts : ResponseOptions) :
    ∃ ys, projectionStage (.arr xs) opts = .arr ys ∧ ys.length = xs.length := by
  unfold projectionStage
  cases hf : opts.fields with
  | none => exact ⟨xs, rfl, rfl⟩
  | some fs =>
      by_cases he : opts.explicitFields = some true
      · exact ⟨selectFields xs fs, by simp [he], selectFields_length xs fs⟩
      · exact ⟨xs, by simp [he], rfl⟩

/-- The length of the limited array depends only on the input length. -/
theorem limitStage_length_congr (xs ys : List JSValue) (l : Option ℤ)
    (h : xs.length = ys.length) :
    (limitStage xs l).length = (limitStage ys l).length := by
  cases l with
  | none => simpa [limitStage] using h
  | some n =>
      by_cases hn : (n != 0 && decide (n > 0)) = true
      · simp [limitStage, hn, jsSlice, jsSliceIndex, h]
      · simp [limitStage, hn, h]

/-- The effective `page_size` (`options.page_size || 50`) is never
zero. -/
theorem jsNumOr_ne_zero (o : Option ℤ) (d : ℤ) (hd : d ≠ 0) :
    jsNumOr o d ≠ 0 := by
  unfold jsNumOr
  cases o with
  | none => exact hd
  | some n =>
      show (if n = 0 then d else n) ≠ 0
      by_cases hn : n = 0
      · rw [if_pos hn]; exact hd
      · rw [if_neg hn]; exact hn

/-- C2: whenever pagination is triggered on an array envelope, the
returned pagination block satisfies: `total_items` is the array length
after `limit` truncation but before the page slice; `total_pages` is the
ceiling of `total_items / page_size`; `has_next = current_page <
total_pages`; `has_previous = current_page > 1` — with `current_page`
and `page_size` the `|| 1` / `|| 50` defaulted option values. -/
theorem c2_pagination_arith (r : QuiverAPIResponse) (opts : ResponseOptions)
    (xs : List JSValue)
    (herr : optStrTruthy r.error = false)
    (hdata : r.data = .arr xs)
    (htrig : (numOptTruthy opts.page || numOptTruthy opts.page_size ||
      numOptTruthy opts.limit) = true) :
    ∃ p : PaginationInfo, (formatResponse r opts).pagination = some p ∧
      p.current_page = jsNumOr opts.page 1 ∧
      p.page_size = jsNumOr opts.page_size 50 ∧
      p.total_items = ((limitStage xs opts.limit).length : ℤ) ∧
      p.total_pages = Int.ceil ((p.total_items : ℚ) / (p.page_size : ℚ)) ∧
      (p.has_next = true ↔ p.current_page < p.total_pages) ∧
      (p.has_previous = true ↔ 1 < p.current_page) := by
  obtain ⟨ys, hproj, hlen⟩ := projectionStage_arr xs opts
  have hmain : (formatResponse r opts).pagination =
      some ((applyPagination (projectionStage r.data opts) opts).pagination) := by
    unfold formatResponse
    rw [herr]
    simp only [Bool.false_eq_true, if_false]
    rw [if_pos htrig]
  rw [hdata, hproj] at hmain
  refine ⟨(applyPagination (.arr ys) opts).pagination, hmain, rfl, rfl, ?_, ?_, ?_, ?_⟩
  · show ((limitStage ys opts.limit).length : ℤ) = ((limitStage xs opts.limit).length : ℤ)
    exact_mod_cast limitStage_length_congr ys xs opts.limit hlen
  · show jsCeilDiv ((limitStage ys opts.limit).length : ℤ) (jsNumOr opts.page_size 50) = _
    exact jsCeilDiv_eq_ceil _ _ (jsNumOr_ne_zero opts.page_size 50 (by norm_num))
  · exact decide_eq_true_iff
  · exact decide_eq_true_iff

set_option maxRecDepth 10000 in
/-- C2 witness: the spec's concrete scenario — 120 identical objects
with `{limit:50, page:1, page_size:20}` yield
`{current_page:1, page_size:20, total_items:50, total_pages:3,
has_next:true, has_previous:false}` and a data slice of 20 elements. -/
theorem c2_witness :
    (∃ p : PaginationInfo,
      (formatResponse
        (QuiverAPIResponse.mk (.arr (List.replicate 120 (.obj [("a", .num 1)]))) none 200)
        { limit := some 50, page := some 1, page_size := some 20 }).pagination = some p ∧
      p.current_page = jsNumOr (some 1) 1 ∧
      p.page_size = jsNumOr (some 20) 50 ∧
      p.total_items =
        ((limitStage (List.replicate 120 (.obj [("a", .num 1)])) (some 50)).length : ℤ) ∧
      p.total_pages = Int.ceil ((p.total_items : ℚ) / (p.page_size : ℚ)) ∧
      (p.has_next = true ↔ p.current_page < p.total_pages) ∧
      (p.has_previous = true ↔ 1 < p.current_page)) ∧
    (formatResponse
        (QuiverAPIResponse.mk (.arr (List.replicate 120 (.obj [("a", .num 1)]))) none 200)
        { limit := some 50, page := some 1, page_size := some 20 }).pagination =
      some (PaginationInfo.mk 1 20 50 3 true false) ∧
    (formatResponse
        (QuiverAPIResponse.mk (.arr (List.replicate 120 (.obj [("a", .num 1)]))) none 200)
        { limit := some 50, page := some 1, page_size := some 20 }).data =
      .arr (List.replicate 20 (.obj [("a", .num 1)])) :=
  ⟨c2_pagination_arith _ _ (List.replicate 120 (.obj [("a", .num 1)])) rfl rfl (by decide),
   by rfl, by rfl⟩

/-! ### Supporting lemmas for the JSON round-trip (claim C7) -/

/-- Code point of a character built from a valid code point. -/
theorem char_toNat_ofNat_valid (n : ℕ) (h : n.isValidChar) :
    (Char.ofNat n).toNat = n := by
  rw [Char.ofNat, dif_pos h]
  simp [Char.ofNatAux, Char.toNat, UInt32.toNat, UInt32.ofNat', BitVec.toNat_ofNatLt]

/-- Code point of a decimal digit character. -/
theorem digit_char_toNat (m : ℕ) (h : m < 10) :
    (Char.ofNat (48 + m)).toNat = 48 + m :=
  char_toNat_ofNat_valid _ (Or.inl (by omega))

/-- A built digit character satisfies the digit test. -/
theorem isDigitChar_digit (m : ℕ) (h : m < 10) :
    isDigitChar (Char.ofNat (48 + m)) = true := by
  unfold isDigitChar
  rw [digit_char_toNat m h]
  simp
  omega

/-- Every character the decimal printer emits is a digit. -/
theorem natDigitsAux_digits (fuel n : ℕ) :
    ∀ c ∈ natDigitsAux fuel n, isDigitChar c = true := by
  induction fuel generalizing n with
  | zero => intro c hc; cases hc
  | succ fuel ih =>
      intro c hc
      unfold natDigitsAux at hc
      by_cases hn : n < 10
      · rw [if_pos hn] at hc
        rw [List.mem_singleton.mp hc]
        exact isDigitChar_digit n hn
      · rw [if_neg hn] at hc
        rcases List.mem_append.mp hc with h | h
        · exact ih (n / 10) c h
        · rw [List.mem_singleton.mp h]
          exact isDigitChar_digit (n % 10) (Nat.mod_lt n (by omega))

/-- With enough fuel the decimal printer emits at least one digit. -/
theorem natDigitsAux_ne_nil (fuel n : ℕ) (h : n < fuel) :
    natDigitsAux fuel n ≠ [] := by
  cases fuel with
  | zero => omega
  | succ fuel =>
      unfold natDigitsAux
      by_cases hn : n < 10
      · rw [if_pos hn]
        simp
      · rw [if_neg hn]
        simp

/-- Value of the digit fold over the printed digits of `n`. -/
theorem natDigitsAux_foldl (fuel : ℕ) :
    ∀ n acc, n < fuel →
      (natDigitsAux fuel n).foldl (fun a c => a * 10 + (c.toNat - 48)) acc =
        acc * 10 ^ (natDigitsAux fuel n).length + n := by
  induction fuel with
  | zero => intro n acc h; omega
  | succ fuel ih =>
      intro n acc h
      unfold natDigitsAux
      by_cases hn : n < 10
      · rw [if_pos hn]
        simp [digit_char_toNat n hn]
      · rw [if_neg hn]
        have hdiv : n / 10 < fuel := by
          have h1 : n / 10 < n := Nat.div_lt_self (by omega) (by omega)
          omega
        rw [List.foldl_append, ih (n / 10) acc hdiv]
        simp only [List.foldl_cons, List.foldl_nil, List.length_append,
          List.length_singleton]
        rw [digit_char_toNat (n % 10) (Nat.mod_lt n (by omega))]
        have hmod : 48 + n % 10 - 48 = n % 10 := by omega
        rw [hmod, pow_succ]
        have := Nat.div_add_mod n 10
        ring_nf
        omega

/-- The digit parser consumes exactly a maximal digit run. -/
theorem parseDigits_append (ds : List Char) :
    ∀ (acc : ℕ) (rest : List Char), (∀ c ∈ ds, isDigitChar c = true) →
      noDigitHead rest = true →
      parseDigits acc (ds ++ rest) =
        (ds.foldl (fun a c => a * 10 + (c.toNat - 48)) acc, rest) := by
  induction ds with
  | nil =>
      intro acc rest _ hrest
      cases rest with
      | nil => rfl
      | cons c tl =>
          have hc : isDigitChar c = false := by
            simpa [noDigitHead] using hrest
          show parseDigits acc (c :: tl) = (acc, c :: tl)
          unfold parseDigits
          rw [hc]
          simp
  | cons d ds ih =>
      intro acc rest hds hrest
      have hd : isDigitChar d = true := hds d (List.mem_cons_self d ds)
      show parseDigits acc (d :: (ds ++ rest)) = _
      unfold parseDigits
      rw [hd]
      simp only [if_true, List.foldl_cons]
      exact ih _ rest (fun c hc => hds c (List.mem_cons_of_mem d hc)) hrest

/-- Parsing the printed digits of `n` recovers `n`. -/
theorem parseDigits_natStr (n : ℕ) (rest : List Char)
    (hrest : noDigitHead rest = true) :
    parseDigits 0 ((natStr n).data ++ rest) = (n, rest) := by
  have hdata : (natStr n).data = natDigitsAux (n + 1) n := rfl
  rw [hdata, parseDigits_append _ 0 rest (natDigitsAux_digits (n + 1) n) hrest,
    natDigitsAux_foldl (n + 1) n 0 (by omega)]
  simp

/-- On a digit head, the value parser takes its number branch. -/
theorem parseVal_digit (f : ℕ) (c : Char) (rest : List Char)
    (hd : isDigitChar c = true) :
    parseVal (f + 1) (c :: rest) =
      some (.num ((parseDigits 0 (c :: rest)).1 : ℤ), (parseDigits 0 (c :: rest)).2) := by
  have h1 : c ≠ 'n' := by intro h; rw [h] at hd; exact absurd hd (by decide)
  have h2 : c ≠ 't' := by intro h; rw [h] at hd; exact absurd hd (by decide)
  have h3 : c ≠ 'f' := by intro h; rw [h] at hd; exact absurd hd (by decide)
  have h4 : c ≠ '"' := by intro h; rw [h] at hd; exact absurd hd (by decide)
  have h5 : c ≠ '[' := by intro h; rw [h] at hd; exact absurd hd (by decide)
  have h6 : c ≠ openBrace := by intro h; rw [h] at hd; exact absurd hd (by decide)
  have h7 : c ≠ '-' := by intro h; rw [h] at hd; exact absurd hd (by decide)
  simp only [parseVal]
  rw [if_neg h1, if_neg h2, if_neg h3, if_neg h4, if_neg h5, if_neg h6, if_neg h7,
    if_pos hd]

/-- The printed digits of a natural number are a nonempty digit list. -/
theorem natStr_data_cons (n : ℕ) :
    ∃ c cs, (natStr n).data = c :: cs ∧ isDigitChar c = true := by
  have hdata : (natStr n).data = natDigitsAux (n + 1) n := rfl
  cases hds : natDigitsAux (n + 1) n with
  | nil => exact absurd hds (natDigitsAux_ne_nil (n + 1) n (by omega))
  | cons c cs =>
      refine ⟨c, cs, by rw [hdata, hds], ?_⟩
      exact natDigitsAux_digits (n + 1) n c (by rw [hds]; exact List.mem_cons_self c cs)

/-- Parsing a printed natural number recovers it. -/
theorem parseVal_natStr (f n : ℕ) (rest : List Char)
    (hrest : noDigitHead rest = true) :
    parseVal (f + 1) ((natStr n).data ++ rest) = some (.num (n : ℤ), rest) := by
  obtain ⟨c, cs, hcons, hd⟩ := natStr_data_cons n
  rw [hcons, List.cons_append, parseVal_digit f c (cs ++ rest) hd,
    ← List.cons_append, ← hcons, parseDigits_natStr n rest hrest]

/-- Parsing a printed integer recovers it. -/
theorem parseVal_intStr (f : ℕ) (n : ℤ) (rest : List Char)
    (hrest : noDigitHead rest = true) :
    parseVal (f + 1) ((intStr n).data ++ rest) = some (.num n, rest) := by
  by_cases hn : n < 0
  · have hdata : (intStr n).data = '-' :: (natStr n.natAbs).data := by
      unfold intStr
      rw [if_pos hn]
      rfl
    rw [hdata, List.cons_append]
    obtain ⟨c, cs, hcons, hd⟩ := natStr_data_cons n.natAbs
    simp only [parseVal]
    rw [if_neg (by decide : ¬ ('-' = 'n')), if_neg (by decide : ¬ ('-' = 't')),
      if_neg (by decide : ¬ ('-' = 'f')), if_neg (by decide : ¬ ('-' = '"')),
      if_neg (by decide : ¬ ('-' = '[')), if_neg (by decide : ¬ ('-' = openBrace))]
    simp only [if_true]
    rw [hcons, List.cons_append]
    simp only [hd, if_true]
    rw [← List.cons_append, ← hcons, parseDigits_natStr n.natAbs rest hrest]
    have habs : ((n.natAbs : ℤ)) = -n := by omega
    simp [habs]
  · have hdata : (intStr n).data = (natStr n.toNat).data := by
      unfold intStr
      rw [if_neg hn]
    rw [hdata, parseVal_natStr f n.toNat rest hrest]
    have : ((n.toNat : ℤ)) = n := Int.toNat_of_nonneg (by omega)
    rw [this]

/-- The escaper's hexadecimal digits are hexadecimal and decode to their
value. -/
theorem hexDigitChar_spec (m : ℕ) (h : m < 16) :
    isHexChar (hexDigitChar m) = true ∧ hexVal (hexDigitChar m) = m := by
  unfold hexDigitChar isHexChar hexVal
  by_cases hm : m < 10
  · rw [if_pos hm]
    have ht := digit_char_toNat m hm
    rw [ht]
    constructor
    · simp
      omega
    · rw [if_pos (by omega)]
      omega
  · rw [if_neg hm]
    have ht : (Char.ofNat (87 + m)).toNat = 87 + m :=
      char_toNat_ofNat_valid _ (Or.inl (by omega))
    rw [ht]
    constructor
    · simp
      omega
    · rw [if_neg (by omega)]
      omega

/-- Round-trip of a single escaped character: the string-body parser
decodes the escaper's output for `c` back to `c` and continues. -/
theorem parseStrChars_escapeChar (fuel : ℕ) (c : Char) (tail : List Char) :
    parseStrChars (fuel + 1) (jsonEscapeChar c ++ tail) =
      (parseStrChars fuel tail).map (fun p => (c :: p.1, p.2)) := by
  by_cases h1 : c = '"'
  · subst h1; rfl
  by_cases h2 : c = '\\'
  · subst h2; rfl
  by_cases h3 : c = '\n'
  · subst h3; rfl
  by_cases h4 : c = '\t'
  · subst h4; rfl
  by_cases h5 : c = '\r'
  · subst h5; rfl
  by_cases h6 : c = Char.ofNat 8
  · subst h6; rfl
  by_cases h7 : c = Char.ofNat 12
  · subst h7; rfl
  by_cases h8 : c.toNat < 32
  · have hesc : jsonEscapeChar c =
        ['\\', 'u', '0', '0', hexDigitChar (c.toNat / 16), hexDigitChar (c.toNat % 16)] := by
      unfold jsonEscapeChar
      rw [if_neg h1, if_neg h2, if_neg h3, if_neg h4, if_neg h5, if_neg h6,
        if_neg h7, if_pos h8]
    rw [hesc]
    have hdiv : c.toNat / 16 < 16 := by omega
    have hmod : c.toNat % 16 < 16 := by omega
    obtain ⟨hx1, hv1⟩ := hexDigitChar_spec _ hdiv
    obtain ⟨hx2, hv2⟩ := hexDigitChar_spec _ hmod
    have hstep : parseStrChars (fuel + 1) ('\\' :: 'u' :: '0' :: '0' ::
        hexDigitChar (c.toNat / 16) :: hexDigitChar (c.toNat % 16) :: tail) =
        (if (isHexChar '0' && isHexChar '0' && isHexChar (hexDigitChar (c.toNat / 16))
            && isHexChar (hexDigitChar (c.toNat % 16))) = true then
          (parseStrChars fuel tail).map (fun p =>
            (Char.ofNat ((((hexVal '0' * 16 + hexVal '0') * 16 +
              hexVal (hexDigitChar (c.toNat / 16))) * 16) +
              hexVal (hexDigitChar (c.toNat % 16))) :: p.1, p.2))
        else none) := rfl
    rw [List.cons_append, List.cons_append, List.cons_append, List.cons_append,
      List.cons_append, List.cons_append, List.nil_append] at *
    rw [hstep, hx1, hx2]
    rw [if_pos (by simp [(by decide : isHexChar '0' = true)])]
    rw [hv1, hv2]
    have hzero : hexVal '0' = 0 := by decide
    rw [hzero]
    have harith : (((0 * 16 + 0) * 16 + c.toNat / 16) * 16) + c.toNat % 16 = c.toNat := by
      omega
    rw [harith, Char.ofNat_toNat]
  · have hesc : jsonEscapeChar c = [c] := by
      unfold jsonEscapeChar
      rw [if_neg h1, if_neg h2, if_neg h3, if_neg h4, if_neg h5, if_neg h6,
        if_neg h7, if_neg h8]
    rw [hesc, List.cons_append, List.nil_append]
    simp only [parseStrChars]
    rw [if_neg h1, if_neg h2]

/-- Round-trip of an escaped string body: the parser recovers the
original characters and stops at the closing quote, for any fuel
exceeding the decoded length. -/
theorem parseStrChars_escapeList (cs : List Char) :
    ∀ (rest : List Char) (fuel : ℕ), cs.length < fuel →
      parseStrChars fuel (jsonEscapeList cs ++ '"' :: rest) = some (cs, rest) := by
  induction cs with
  | nil =>
      intro rest fuel hf
      obtain ⟨f, rfl⟩ : ∃ f, fuel = f + 1 := ⟨fuel - 1, by omega⟩
      rfl
  | cons c tl ih =>
      intro rest fuel hf
      obtain ⟨f, rfl⟩ : ∃ f, fuel = f + 1 := ⟨fuel - 1, by omega⟩
      show parseStrChars (f + 1) ((jsonEscapeChar c ++ jsonEscapeList tl) ++ '"' :: rest)
        = _
      rw [List.append_assoc, parseStrChars_escapeChar,
        ih rest f (by simpa using Nat.lt_of_succ_lt_succ hf)]
      rfl

/-- Characters of a concatenation. -/
theorem string_data_append (a b : String) : (a ++ b).data = a.data ++ b.data := rfl

/-- Rebuilding a string from its characters. -/
theorem string_mk_data (s : String) : String.mk s.data = s := rfl

/-- String length as character count. -/
theorem string_length_data (s : String) : s.length = s.data.length := rfl

/-- The serializer succeeds on every JSON-serializable value. -/
theorem jsonStringify_total (v : JSValue) (h : wellFormedV v = true) :
    ∃ s, jsonStringify v = some s := by
  cases v with
  | undefined => exact absurd h (by simp [wellFormedV])
  | null => exact ⟨_, rfl⟩
  | bool b => exact ⟨_, rfl⟩
  | num n => exact ⟨_, rfl⟩
  | str s => exact ⟨_, rfl⟩
  | arr xs => exact ⟨_, rfl⟩
  | obj kvs => exact ⟨_, rfl⟩

/-- Serialized array elements, head form. -/
theorem jsonElems_cons (v : JSValue) (tl : List JSValue) (s : String)
    (hs : jsonStringify v = some s) :
    jsonElems (v :: tl) = s :: jsonElems tl := by
  simp [jsonElems, hs]

/-- Serialized object members, head form. -/
theorem jsonMembers_cons (k : String) (v : JSValue) (tl : List (String × JSValue))
    (s : String) (hs : jsonStringify v = some s) :
    jsonMembers ((k, v) :: tl) = (jsonQuote k ++ ":" ++ s) :: jsonMembers tl := by
  simp [jsonMembers, hs]

/-- The serialized form of a value begins with a character other than a
closing bracket, closing brace, comma or colon. -/
theorem jsonStringify_head (v : JSValue) (s : String)
    (hs : jsonStringify v = some s) :
    ∃ c cs, s.data = c :: cs ∧ c ≠ ']' ∧ c ≠ closeBrace ∧ c ≠ ',' := by
  cases v with
  | undefined => exact absurd hs (by simp [jsonStringify])
  | null =>
      obtain rfl : s = "null" := by
        simpa [jsonStringify] using hs.symm
      exact ⟨'n', _, rfl, by decide, by decide, by decide⟩
  | bool b =>
      cases b with
      | true =>
          obtain rfl : s = "true" := by
            simpa [jsonStringify] using hs.symm
          exact ⟨'t', _, rfl, by decide, by decide, by decide⟩
      | false =>
          obtain rfl : s = "false" := by
            simpa [jsonStringify] using hs.symm
          exact ⟨'f', _, rfl, by decide, by decide, by decide⟩
  | num n =>
      obtain rfl : s = intStr n := by
        simpa [jsonStringify] using hs.symm
      by_cases hn : n < 0
      · refine ⟨'-', (natStr n.natAbs).data, ?_, by decide, by decide, by decide⟩
        unfold intStr
        rw [if_pos hn]
        rfl
      · obtain ⟨c, cs, hdata, hd⟩ := natStr_data_cons n.toNat
        refine ⟨c, cs, ?_, ?_, ?_, ?_⟩
        · unfold intStr
          rw [if_neg hn]
          exact hdata
        · intro h; rw [h] at hd; exact absurd hd (by decide)
        · intro h; rw [h] at hd; exact absurd hd (by decide)
        · intro h; rw [h] at hd; exact absurd hd (by decide)
  | str s0 =>
      obtain rfl : s = jsonQuote s0 := by
        simpa [jsonStringify] using hs.symm
      exact ⟨'"', _, rfl, by decide, by decide, by decide⟩
  | arr xs =>
      obtain rfl : s = "[" ++ joinComma (jsonElems xs) ++ "]" := by
        simpa [jsonStringify] using hs.symm
      exact ⟨'[', _, rfl, by decide, by decide, by decide⟩
  | obj kvs =>
      obtain rfl : s = "\x7b" ++ joinComma (jsonMembers kvs) ++ "\x7d" := by
        simpa [jsonStringify] using hs.symm
      exact ⟨openBrace, _, rfl, by decide, by decide, by decide⟩

/-- The serialized form of a value is nonempty. -/
theorem jsonStringify_length_pos (v : JSValue) (s : String)
    (hs : jsonStringify v = some s) : 1 ≤ s.length := by
  obtain ⟨c, cs, hdata, -, -, -⟩ := jsonStringify_head v s hs
  rw [string_length_data, hdata]
  simp

/-- Escaping does not shorten a character list. -/
theorem jsonEscapeList_length (cs : List Char) :
    cs.length ≤ (jsonEscapeList cs).length := by
  induction cs with
  | nil => simp [jsonEscapeList]
  | cons c tl ih =>
      show tl.length + 1 ≤ (jsonEscapeChar c ++ jsonEscapeList tl).length
      rw [List.length_append]
      have : 1 ≤ (jsonEscapeChar c).length := by
        unfold jsonEscapeChar
        split_ifs <;> simp
      omega

/-- A serialized string literal has at least its two quotes. -/
theorem jsonQuote_length (k : String) : 2 ≤ (jsonQuote k).length := by
  rw [string_length_data]
  show 2 ≤ ('"' :: (jsonEscapeList k.data ++ ['"'])).length
  simp

mutual

/-- The parser fuel needed for a value is at most its printed length. -/
theorem sizeV_le : ∀ (v : JSValue) (s : String), wellFormedV v = true →
    jsonStringify v = some s → sizeV v ≤ s.length
  | .undefined, s, hwf, _ => absurd hwf (by simp [wellFormedV])
  | .null, s, _, hs => jsonStringify_length_pos .null s hs
  | .bool b, s, _, hs => jsonStringify_length_pos (.bool b) s hs
  | .num n, s, _, hs => jsonStringify_length_pos (.num n) s hs
  | .str s0, s, _, hs => jsonStringify_length_pos (.str s0) s hs
  | .arr xs, s, hwf, hs => by
      have hJ := sizeL_le xs (by simpa [wellFormedV] using hwf)
      cases hs
      show sizeL xs + 1 ≤ ("[" ++ (joinComma (jsonElems xs) ++ "]")).length
      rw [String.length_append, String.length_append]
      have h1 : ("[" : String).length = 1 := rfl
      have h2 : ("]" : String).length = 1 := rfl
      omega
  | .obj kvs, s, hwf, hs => by
      have hJ := sizeM_le kvs (by simpa [wellFormedV] using hwf)
      cases hs
      show sizeM kvs + 1 ≤ (("\x7b" : String) ++ (joinComma (jsonMembers kvs) ++ "\x7d")).length
      rw [String.length_append, String.length_append]
      have h1 : ("\x7b" : String).length = 1 := rfl
      have h2 : ("\x7d" : String).length = 1 := rfl
      omega

/-- The parser fuel needed for an element list is at most its printed
length plus one. -/
theorem sizeL_le : ∀ (xs : List JSValue), wellFormedL xs = true →
    sizeL xs ≤ (joinComma (jsonElems xs)).length + 1
  | [], _ => by
      show sizeL [] ≤ (joinComma []).length + 1
      decide
  | v :: tl, hwf => by
      have hv : wellFormedV v = true := by
        simp [wellFormedL] at hwf
        exact hwf.1
      have htl : wellFormedL tl = true := by
        simp [wellFormedL] at hwf
        exact hwf.2
      obtain ⟨sv, hsv⟩ := jsonStringify_total v hv
      have hV := sizeV_le v sv hv hsv
      have hpos := jsonStringify_length_pos v sv hsv
      rw [jsonElems_cons v tl sv hsv]
      cases tl with
      | nil =>
          show max (sizeV v) (sizeL []) + 1 ≤ (joinComma [sv]).length + 1
          show max (sizeV v) (sizeL []) + 1 ≤ sv.length + 1
          have : sizeL ([] : List JSValue) = 1 := rfl
          omega
      | cons w tl' =>
          have hL := sizeL_le (w :: tl') htl
          have hjoin : joinComma (sv :: jsonElems (w :: tl')) =
              sv ++ ("," ++ joinComma (jsonElems (w :: tl'))) := by
            show joinComma (sv :: ((jsonStringify w).getD "null") :: jsonElems tl') = _
            rfl
          rw [hjoin, String.length_append, String.length_append]
          have hcomma : ("," : String).length = 1 := rfl
          show max (sizeV v) (sizeL (w :: tl')) + 1 ≤ _
          omega

/-- The parser fuel needed for a member list is at most its printed
length plus one. -/
theorem sizeM_le : ∀ (kvs : List (String × JSValue)), wellFormedM kvs = true →
    sizeM kvs ≤ (joinComma (jsonMembers kvs)).length + 1
  | [], _ => by
      show sizeM [] ≤ (joinComma []).length + 1
      decide
  | (k, v) :: tl, hwf => by
      have hv : wellFormedV v = true := by
        simp [wellFormedM] at hwf
        exact hwf.1
      have htl : wellFormedM tl = true := by
        simp [wellFormedM] at hwf
        exact hwf.2
      obtain ⟨sv, hsv⟩ := jsonStringify_total v hv
      have hV := sizeV_le v sv hv hsv
      have hq := jsonQuote_length k
      have hcolon : (":" : String).length = 1 := rfl
      have hcomma : ("," : String).length = 1 := rfl
      have hm : (jsonQuote k ++ ":" ++ sv).length =
          (jsonQuote k).length + 1 + sv.length := by
        rw [String.length_append, String.length_append, hcolon]
      rw [jsonMembers_cons k v tl sv hsv]
      cases tl with
      | nil =>
          show max (sizeV v) (sizeM []) + 1 ≤ (joinComma [jsonQuote k ++ ":" ++ sv]).length + 1
          show max (sizeV v) (sizeM []) + 1 ≤ (jsonQuote k ++ ":" ++ sv).length + 1
          have : sizeM ([] : List (String × JSValue)) = 1 := rfl
          omega
      | cons p tl' =>
          have hM := sizeM_le (p :: tl') htl
          obtain ⟨k2, v2⟩ := p
          have hv2 : wellFormedV v2 = true := by
            simp [wellFormedM] at htl
            exact htl.1
          obtain ⟨sv2, hsv2⟩ := jsonStringify_total v2 hv2
          have hjoin : joinComma ((jsonQuote k ++ ":" ++ sv) :: jsonMembers ((k2, v2) :: tl')) =
              (jsonQuote k ++ ":" ++ sv) ++
                ("," ++ joinComma (jsonMembers ((k2, v2) :: tl'))) := by
            rw [jsonMembers_cons k2 v2 tl' sv2 hsv2]
            rfl
          rw [hjoin]
          have hlen : ((jsonQuote k ++ ":" ++ sv) ++
              ("," ++ joinComma (jsonMembers ((k2, v2) :: tl')))).length =
              (jsonQuote k).length + 1 + sv.length + 1 +
                (joinComma (jsonMembers ((k2, v2) :: tl'))).length := by
            simp only [String.length_append, hcolon, hcomma]
            omega
          rw [hlen]
          show max (sizeV v) (sizeM ((k2, v2) :: tl')) + 1 ≤ _
          omega

end

/-- Values need at least one unit of parser fuel. -/
theorem sizeV_pos (v : JSValue) : 1 ≤ sizeV v := by
  cases v <;> simp [sizeV]

/-- Element lists need at least one unit of parser fuel. -/
theorem sizeL_pos (xs : List JSValue) : 1 ≤ sizeL xs := by
  cases xs <;> simp [sizeL]

/-- Member lists need at least one unit of parser fuel. -/
theorem sizeM_pos (kvs : List (String × JSValue)) : 1 ≤ sizeM kvs := by
  cases kvs with
  | nil => simp [sizeM]
  | cons p tl => obtain ⟨k, v⟩ := p; simp [sizeM]

/-- Round-trip of the printer and parser at every fuel level: parsing
the serialized form of a JSON-serializable value (or printed element or
member list) recovers it exactly and consumes exactly its characters. -/
theorem json_roundtrip_aux : ∀ fuel : ℕ,
    (∀ (v : JSValue) (s : String), wellFormedV v = true → jsonStringify v = some s →
      sizeV v ≤ fuel → ∀ (rest : List Char), noDigitHead rest = true →
      parseVal fuel (s.data ++ rest) = some (v, rest)) ∧
    (∀ (xs : List JSValue), wellFormedL xs = true → sizeL xs ≤ fuel →
      ∀ (rest : List Char), noDigitHead rest = true →
      parseElems fuel ((joinComma (jsonElems xs)).data ++ ']' :: rest) = some (xs, rest)) ∧
    (∀ (kvs : List (String × JSValue)), wellFormedM kvs = true → sizeM kvs ≤ fuel →
      ∀ (rest : List Char), noDigitHead rest = true →
      parseMembers fuel ((joinComma (jsonMembers kvs)).data ++ closeBrace :: rest) =
        some (kvs, rest)) := by
  intro fuel
  induction fuel with
  | zero =>
      refine ⟨fun v _ _ _ hsz => absurd hsz (by have := sizeV_pos v; omega),
        fun xs _ hsz => absurd hsz (by have := sizeL_pos xs; omega),
        fun kvs _ hsz => absurd hsz (by have := sizeM_pos kvs; omega)⟩
  | succ f ih =>
      obtain ⟨ihV, ihL, ihM⟩ := ih
      refine ⟨?_, ?_, ?_⟩
      · intro v s hwf hs hsz rest hrest
        cases v with
        | undefined => simp [wellFormedV] at hwf
        | null => cases hs; rfl
        | bool b =>
            cases b with
            | true => cases hs; rfl
            | false => cases hs; rfl
        | num n =>
            cases hs
            exact parseVal_intStr f n rest hrest
        | str s0 =>
            cases hs
            have hdata : (jsonQuote s0).data ++ rest =
                '"' :: (jsonEscapeList s0.data ++ '"' :: rest) := by
              show ('"' :: (jsonEscapeList s0.data ++ ['"'])) ++ rest = _
              simp
            rw [hdata]
            simp only [parseVal]
            rw [if_neg (by decide : ¬ (('"' : Char) = 'n')),
              if_neg (by decide : ¬ (('"' : Char) = 't')),
              if_neg (by decide : ¬ (('"' : Char) = 'f'))]
            simp only [if_pos (rfl : ('"' : Char) = '"'), reduceIte]
            have hlt : s0.data.length <
                (jsonEscapeList s0.data ++ '"' :: rest).length + 1 := by
              rw [List.length_append, List.length_cons]
              have := jsonEscapeList_length s0.data
              omega
            rw [parseStrChars_escapeList s0.data (rest) _ hlt]
            simp [string_mk_data]
        | arr xs =>
            cases hs
            have hwfl : wellFormedL xs = true := by simpa [wellFormedV] using hwf
            have hszl : sizeL xs ≤ f := by
              have : sizeV (.arr xs) = sizeL xs + 1 := rfl
              omega
            have hdata : ("[" ++ joinComma (jsonElems xs) ++ "]").data ++ rest =
                '[' :: ((joinComma (jsonElems xs)).data ++ ']' :: rest) := by
              rw [string_data_append, string_data_append]
              show ((['['] ++ (joinComma (jsonElems xs)).data) ++ [']']) ++ rest = _
              simp
            rw [hdata]
            simp only [parseVal]
            rw [if_neg (by decide : ¬ (('[' : Char) = 'n')),
              if_neg (by decide : ¬ (('[' : Char) = 't')),
              if_neg (by decide : ¬ (('[' : Char) = 'f')),
              if_neg (by decide : ¬ (('[' : Char) = '"'))]
            simp only [if_pos (rfl : ('[' : Char) = '['), reduceIte]
            rw [ihL xs hwfl hszl rest hrest]
            rfl
        | obj kvs =>
            cases hs
            have hwfm : wellFormedM kvs = true := by simpa [wellFormedV] using hwf
            have hszm : sizeM kvs ≤ f := by
              have : sizeV (.obj kvs) = sizeM kvs + 1 := rfl
              omega
            have hdata : ("\x7b" ++ joinComma (jsonMembers kvs) ++ "\x7d").data ++ rest =
                openBrace :: ((joinComma (jsonMembers kvs)).data ++ closeBrace :: rest) := by
              rw [string_data_append, string_data_append]
              show (([openBrace] ++ (joinComma (jsonMembers kvs)).data) ++ [closeBrace]) ++ rest = _
              simp
            rw [hdata]
            simp only [parseVal]
            rw [if_neg (by decide : ¬ (openBrace = 'n')),
              if_neg (by decide : ¬ (openBrace = 't')),
              if_neg (by decide : ¬ (openBrace = 'f')),
              if_neg (by decide : ¬ (openBrace = '"')),
              if_neg (by decide : ¬ (openBrace = '['))]
            simp only [if_pos (rfl : openBrace = openBrace), reduceIte]
            rw [ihM kvs hwfm hszm rest hrest]
            rfl
      · intro xs hwf hsz rest hrest
        cases xs with
        | nil =>
            show parseElems (f + 1) ((joinComma []).data ++ ']' :: rest) = some ([], rest)
            rfl
        | cons v tl =>
            have hv : wellFormedV v = true := by
              simp [wellFormedL] at hwf
              exact hwf.1
            have htl : wellFormedL tl = true := by
              simp [wellFormedL] at hwf
              exact hwf.2
            obtain ⟨sv, hsv⟩ := jsonStringify_total v hv
            have hszv : sizeV v ≤ f := by
              have : sizeL (v :: tl) = max (sizeV v) (sizeL tl) + 1 := rfl
              omega
            have hszt : sizeL tl ≤ f := by
              have : sizeL (v :: tl) = max (sizeV v) (sizeL tl) + 1 := rfl
              omega
            obtain ⟨c, cs, hcs, hc1, hc2, hc3⟩ := jsonStringify_head v sv hsv
            rw [jsonElems_cons v tl sv hsv]
            cases tl with
            | nil =>
                have hjoin : joinComma (sv :: jsonElems []) = sv := rfl
                rw [hjoin]
                have hin : sv.data ++ ']' :: rest = c :: (cs ++ ']' :: rest) := by
                  rw [hcs]
                  rfl
                rw [hin]
                simp only [parseElems]
                rw [if_neg hc1, ← hin,
                  ihV v sv hv hsv hszv (']' :: rest) (by rfl)]
                rfl
            | cons w tl' =>
                have hjoin : joinComma (sv :: jsonElems (w :: tl')) =
                    sv ++ ("," ++ joinComma (jsonElems (w :: tl'))) := by
                  show joinComma (sv :: ((jsonStringify w).getD "null") :: jsonElems tl') = _
                  rfl
                rw [hjoin]
                have hin : (sv ++ ("," ++ joinComma (jsonElems (w :: tl')))).data ++
                    ']' :: rest =
                    sv.data ++ (',' :: ((joinComma (jsonElems (w :: tl'))).data ++
                      ']' :: rest)) := by
                  rw [string_data_append, string_data_append]
                  show (sv.data ++ ([','] ++ (joinComma (jsonElems (w :: tl'))).data)) ++
                    ']' :: rest = _
                  simp
                rw [hin]
                have hin2 : sv.data ++ (',' :: ((joinComma (jsonElems (w :: tl'))).data ++
                    ']' :: rest)) = c :: (cs ++ (',' :: ((joinComma (jsonElems (w :: tl'))).data ++
                    ']' :: rest))) := by
                  rw [hcs]
                  rfl
                rw [hin2]
                simp only [parseElems]
                rw [if_neg hc1, ← hin2,
                  ihV v sv hv hsv hszv
                    (',' :: ((joinComma (jsonElems (w :: tl'))).data ++ ']' :: rest))
                    (by rfl)]
                simp only [reduceIte]
                rw [ihL (w :: tl') htl hszt rest hrest]
                rfl
      · intro kvs hwf hsz rest hrest
        cases kvs with
        | nil =>
            show parseMembers (f + 1) ((joinComma []).data ++ closeBrace :: rest) =
              some ([], rest)
            rfl
        | cons p tl =>
            obtain ⟨k, v⟩ := p
            have hv : wellFormedV v = true := by
              simp [wellFormedM] at hwf
              exact hwf.1
            have htl : wellFormedM tl = true := by
              simp [wellFormedM] at hwf
              exact hwf.2
            obtain ⟨sv, hsv⟩ := jsonStringify_total v hv
            have hszv : sizeV v ≤ f := by
              have : sizeM ((k, v) :: tl) = max (sizeV v) (sizeM tl) + 1 := rfl
              omega
            have hszt : sizeM tl ≤ f := by
              have : sizeM ((k, v) :: tl) = max (sizeV v) (sizeM tl) + 1 := rfl
              omega
            rw [jsonMembers_cons k v tl sv hsv]
            cases tl with
            | nil =>
                have hjoin : joinComma ((jsonQuote k ++ ":" ++ sv) :: jsonMembers []) =
                    jsonQuote k ++ ":" ++ sv := rfl
                rw [hjoin]
                have hq : (jsonQuote k).data =
                    '"' :: (jsonEscapeList k.data ++ ['"']) := rfl
                have hcolon : (":" : String).data = [':'] := rfl
                have hin : (jsonQuote k ++ ":" ++ sv).data ++ closeBrace :: rest =
                    '"' :: (jsonEscapeList k.data ++
                      '"' :: (':' :: (sv.data ++ closeBrace :: rest))) := by
                  rw [string_data_append, string_data_append, hq, hcolon]
                  simp
                rw [hin]
                simp only [parseMembers]
                rw [if_neg (by decide : ¬ (('"' : Char) = closeBrace))]
                simp only [if_pos (rfl : ('"' : Char) = '"'), reduceIte]
                have hlt : k.data.length <
                    (jsonEscapeList k.data ++ '"' :: (':' :: (sv.data ++
                      closeBrace :: rest))).length + 1 := by
                  rw [List.length_append, List.length_cons]
                  have := jsonEscapeList_length k.data
                  omega
                rw [parseStrChars_escapeList k.data _ _ hlt]
                simp only [reduceIte]
                rw [ihV v sv hv hsv hszv (closeBrace :: rest) (by rfl)]
                simp only [reduceIte]
                rw [string_mk_data, if_neg (by decide : ¬ (closeBrace = ','))]
            | cons p2 tl' =>
                obtain ⟨k2, v2⟩ := p2
                have hv2 : wellFormedV v2 = true := by
                  simp [wellFormedM] at htl
                  exact htl.1
                obtain ⟨sv2, hsv2⟩ := jsonStringify_total v2 hv2
                have hjoin : joinComma ((jsonQuote k ++ ":" ++ sv) ::
                    jsonMembers ((k2, v2) :: tl')) =
                    (jsonQuote k ++ ":" ++ sv) ++
                      ("," ++ joinComma (jsonMembers ((k2, v2) :: tl'))) := by
                  rw [jsonMembers_cons k2 v2 tl' sv2 hsv2]
                  rfl
                rw [hjoin]
                have hq : (jsonQuote k).data =
                    '"' :: (jsonEscapeList k.data ++ ['"']) := rfl
                have hcolon : (":" : String).data = [':'] := rfl
                have hcomma2 : ("," : String).data = [','] := rfl
                have hin : ((jsonQuote k ++ ":" ++ sv) ++
                    ("," ++ joinComma (jsonMembers ((k2, v2) :: tl')))).data ++
                    closeBrace :: rest =
                    '"' :: (jsonEscapeList k.data ++
                      '"' :: (':' :: (sv.data ++
                        ',' :: ((joinComma (jsonMembers ((k2, v2) :: tl'))).data ++
                          closeBrace :: rest)))) := by
                  rw [string_data_append, string_data_append, string_data_append,
                    string_data_append, hq, hcolon, hcomma2]
                  simp
                rw [hin]
                simp only [parseMembers]
                rw [if_neg (by decide : ¬ (('"' : Char) = closeBrace))]
                simp only [if_pos (rfl : ('"' : Char) = '"'), reduceIte]
                have hlt : k.data.length <
                    (jsonEscapeList k.data ++ '"' :: (':' :: (sv.data ++
                      ',' :: ((joinComma (jsonMembers ((k2, v2) :: tl'))).data ++
                        closeBrace :: rest)))).length + 1 := by
                  rw [List.length_append, List.length_cons]
                  have := jsonEscapeList_length k.data
                  omega
                rw [parseStrChars_escapeList k.data _ _ hlt]
                simp only [reduceIte]
                rw [ihV v sv hv hsv hszv
                    (',' :: ((joinComma (jsonMembers ((k2, v2) :: tl'))).data ++
                      closeBrace :: rest)) (by rfl)]
                simp only [reduceIte]
                rw [ihM ((k2, v2) :: tl') htl hszt rest hrest]
                rw [string_mk_data]
                rfl

/-! ### Claim C7: round-trip of compact mode -/

/-- C7: for the same pre-mode-stage data (JSON-serializable, i.e.
containing no `undefined`), the string produced under `mode='compact'`
with `format='json'` parses back (`JSON.parse`) to a value deep-equal to
the data produced under `mode='detailed'` — `compact` is exactly
`JSON.stringify` of the data that `detailed` passes through. -/
theorem c7_compact_roundtrip (d : JSValue) (h : wellFormedV d = true) :
    ∃ s, formatAsJSON d .compact = .str s ∧
      formatOutput d .json .compact = .str s ∧
      jsonParse s = some (formatAsJSON d .detailed) ∧
      formatAsJSON d .detailed = d := by
  obtain ⟨s, hs⟩ := jsonStringify_total d h
  refine ⟨s, ?_, ?_, ?_, rfl⟩
  · simp [formatAsJSON, hs]
  · simp [formatOutput, formatAsJSON, hs]
  · show jsonParse s = some d
    unfold jsonParse
    have hsz : sizeV d ≤ s.length + 1 := by
      have := sizeV_le d s h hs
      omega
    have hrt := (json_roundtrip_aux (s.length + 1)).1 d s h hs hsz [] (by rfl)
    rw [List.append_nil] at hrt
    rw [hrt]

/-- C7 witness: the round-trip at a nested concrete value exercising
negative numbers, string escapes, arrays and objects. -/
theorem c7_witness :
    ∃ s, formatAsJSON (.obj [("a", .num (-12)), ("b", .str "x,\"y\nz"),
        ("c", .arr [.null, .bool true, .obj []])]) .compact = .str s ∧
      formatOutput (.obj [("a", .num (-12)), ("b", .str "x,\"y\nz"),
        ("c", .arr [.null, .bool true, .obj []])]) .json .compact = .str s ∧
      jsonParse s = some (formatAsJSON (.obj [("a", .num (-12)), ("b", .str "x,\"y\nz"),
        ("c", .arr [.null, .bool true, .obj []])]) .detailed) ∧
      formatAsJSON (.obj [("a", .num (-12)), ("b", .str "x,\"y\nz"),
        ("c", .arr [.null, .bool true, .obj []])]) .detailed =
        .obj [("a", .num (-12)), ("b", .str "x,\"y\nz"),
          ("c", .arr [.null, .bool true, .obj []])] :=
  c7_compact_roundtrip _ (by rfl)

end QuiverSpec
